import Mathlib

/-!
# Memory Game: a shallow embedding of `src/components/memory-game.jsx`

The React component `MemoryGame` keeps eight pieces of state (`useState`) and
reacts to clicks, to a one second timeout and to two effects.  Each handler is
embedded as a pure function on the record of these pieces; the pending
`setTimeout` callbacks are counted in the extra field `timers`.

A handler of the component runs against the values of the last render and
queues updates which are all applied before the next render, so a handler is
one atomic transition; the last update queued for a piece of state wins.
-/

namespace MemoryGame

/-- One card of the deck: `{ id: index, number }` (lines 42-45). -/
structure Card where
  id : Nat
  number : Nat
  deriving DecidableEq, Repr

/-- The state of the component (lines 4-15), with the number of pending
mismatch timeouts scheduled by `setTimeout` (line 68). -/
structure State where
  gridSize : Nat
  cards : List Card
  flipped : List Nat
  solved : List Nat
  disabled : Bool
  moves : Nat
  maxMoves : Nat
  won : Bool
  timers : Nat
  deriving DecidableEq, Repr

/-- The values given to `useState` on mount (lines 4-15). -/
def mountState : State :=
  { gridSize := 4, cards := [], flipped := [], solved := [], disabled := false,
    moves := 0, maxMoves := 16, won := false, timers := 0 }

/-- Line 35: `[...Array(pairCount).keys()].map((n) => n + 1)`. -/
def numbers (pairCount : Nat) : List Nat :=
  (List.range pairCount).map (fun n => n + 1)

/-- Lines 39-45: the duplicated numbers are shuffled (`shuffle` stands for
`.sort(() => Math.random() - 0.5)`), cut to `totalCards` entries and each entry
becomes a card whose id is its index. -/
def shuffledCards (gridSize : Nat) (shuffle : List Nat → List Nat) : List Card :=
  let totalCards := gridSize * gridSize
  let pairCount := totalCards / 2
  (((shuffle (numbers pairCount ++ numbers pairCount)).take totalCards).enum).map
    (fun p => { id := p.1, number := p.2 })

/-- Lines 27-55: `initializeGame`.  It replaces the deck and resets `flipped`,
`solved`, `won`, `moves` and `maxMoves`; `disabled` is not touched and a
pending timeout is not cleared. -/
def initializeGame (s : State) (shuffle : List Nat → List Nat) : State :=
  { s with
    cards := shuffledCards s.gridSize shuffle
    flipped := []
    solved := []
    won := false
    moves := 0
    maxMoves := s.gridSize * s.gridSize + 2 }

/-- Lines 57-73: `checkMatch`.  `s` is the render the handler closes over (it
supplies `flipped` and `cards`), `q` carries the updates queued so far.  The
result is `none` when `cards[firstId]` or `cards[secondId]` is `undefined`, in
which case reading `.number` throws. -/
def checkMatch (s q : State) (secondId : Nat) : Option State :=
  match s.flipped.head? with
  | none => none
  | some firstId =>
    match s.cards[firstId]?, s.cards[secondId]? with
    | some first, some second =>
      if first.number = second.number then
        some { q with
          solved := q.solved ++ [firstId, secondId]
          flipped := []
          disabled := false }
      else
        some { q with timers := q.timers + 1 }
    | _, _ => none

/-- Lines 75-98: `handleClick`.  The guard of line 77 looks at `disabled`, `won`
and the move count only; the result is `none` when `checkMatch` throws. -/
def handleClick (s : State) (id : Nat) : Option State :=
  if s.disabled || s.won || decide (s.moves ≥ s.maxMoves) then some s
  else if s.flipped.length = 0 then
    some { s with flipped := [id], moves := s.moves + 1 }
  else if s.flipped.length = 1 then
    if some id ≠ s.flipped.head? then
      checkMatch s
        { s with disabled := true, flipped := s.flipped ++ [id], moves := s.moves + 1 } id
    else
      some { s with flipped := [], disabled := false }
  else some s

/-- Lines 68-71: the callback given to `setTimeout`. -/
def timerFire (s : State) : State :=
  { s with flipped := [], disabled := false, timers := s.timers - 1 }

/-- Lines 17-25: `handleGridSizeChange`, on the parsed input.  An input that does
not parse (`NaN`) fails both comparisons, like an integer out of range. -/
def handleGridSizeChange (s : State) (size : Int) : State :=
  if 2 ≤ size ∧ size ≤ 10 then { s with gridSize := size.toNat } else s

/-- Lines 100-105: `handleMaxMoves`, on the parsed input.  An input that does not
parse (`NaN`) fails both comparisons, like an integer out of range. -/
def handleMaxMoves (s : State) (totalMoves : Int) : State :=
  if 4 ≤ totalMoves ∧ totalMoves ≤ 100 then { s with maxMoves := totalMoves.toNat } else s

/-- Lines 108-109: `isFlipped`. -/
def isFlipped (s : State) (id : Nat) : Bool :=
  (decide (s.moves < s.maxMoves) && s.flipped.contains id) || s.solved.contains id

/-- Line 111: `isSolved`. -/
def isSolved (s : State) (id : Nat) : Bool :=
  s.solved.contains id

/-- Lines 117-122: the body of the effect that reports the win. -/
def winEffect (s : State) : State :=
  if s.solved.length = s.cards.length ∧ s.cards.length > 0 then { s with won := true } else s

/-- What the component shows below the board (lines 183-193). -/
inductive Outcome where
  | InProgress
  | Won
  | Lost
  deriving DecidableEq, Repr

/-- Lines 183-193: "You Won!" is rendered when `won`; "Game Over!" when
`moves >= maxMoves && !won`. -/
def outcome (s : State) : Outcome :=
  if s.won then Outcome.Won
  else if s.moves ≥ s.maxMoves then Outcome.Lost
  else Outcome.InProgress

/-- What can happen to a mounted component. -/
inductive Event where
  | click (id : Nat)
  | timer
  | reset (shuffle : List Nat → List Nat)
  | gridSize (size : Int) (shuffle : List Nat → List Nat)
  | setMaxMoves (totalMoves : Int)

/-- One event followed by the render and the effects it triggers.

* A click is offered by a rendered card only (line 169), so its id is an index
  of the deck; the win effect runs when `solved` changed (line 122).
* The timeout callback runs only when one is pending; it changes neither
  `solved` nor `cards`, so no effect follows.
* The reset button (line 196) runs `initializeGame`, which installs a new deck,
  so the win effect runs.
* A grid size change runs `initializeGame` through the effect of line 113 when
  `gridSize` changed.
-/
def step (s : State) : Event → Option State
  | Event.click id =>
    if id < s.cards.length then
      match handleClick s id with
      | some s' => some (if s'.solved = s.solved then s' else winEffect s')
      | none => none
    else none
  | Event.timer =>
    if 0 < s.timers then some (timerFire s) else none
  | Event.reset shuffle => some (winEffect (initializeGame s shuffle))
  | Event.gridSize size shuffle =>
    let s' := handleGridSizeChange s size
    if s'.gridSize = s.gridSize then some s'
    else some (winEffect (initializeGame s' shuffle))
  | Event.setMaxMoves totalMoves => some (handleMaxMoves s totalMoves)

/-- A sequence of events, from left to right. -/
def run (s : State) : List Event → Option State
  | [] => some s
  | e :: es =>
    match step s e with
    | some s' => run s' es
    | none => none

/-- The game shown after mounting with grid size `gridSize`: the effect of line
113 has run `initializeGame` and the win effect has run on the new deck. -/
def freshGame (gridSize : Nat) (shuffle : List Nat → List Nat) : State :=
  winEffect (initializeGame { mountState with gridSize := gridSize } shuffle)

/-- Tile selections as a list of click events. -/
def clicks (ids : List Nat) : List Event :=
  ids.map Event.click

/-- An event sequence made of tile selections and timer firings only. -/
def playOnly : List Event → Bool
  | [] => true
  | Event.click _ :: es => playOnly es
  | Event.timer :: es => playOnly es
  | _ :: _ => false

/-- How many cards of `deck` carry the number `v`. -/
def carriers (deck : List Card) (v : Nat) : Nat :=
  (deck.map Card.number).count v

/-- Every click of the sequence selects a card that is not in `solved` at the
moment of the click. -/
def selectsUnsolved (s : State) : List Event → Bool
  | [] => true
  | e :: es =>
    (match e with
      | Event.click id => !s.solved.contains id
      | _ => true) &&
    (match step s e with
      | some s' => selectsUnsolved s' es
      | none => true)

/-- Consecutive calls of `handleClick`, each on the state left by the one before. -/
def handleClicks (s : State) : List Nat → Option State
  | [] => some s
  | id :: ids =>
    match handleClick s id with
    | some s' => handleClicks s' ids
    | none => none

/-- States of a game that was started fresh on a grid of admitted size with a
shuffle that permutes its input, and then played by tile selections and
timer firings. -/
def Reachable (s : State) : Prop :=
  ∃ (gridSize : Nat) (shuffle : List Nat → List Nat) (evs : List Event),
    2 ≤ gridSize ∧ gridSize ≤ 10 ∧ (∀ l, (shuffle l).Perm l) ∧
    playOnly evs = true ∧ run (freshGame gridSize shuffle) evs = some s

/-- Events that leave the current game in place: tile selections, timer
firings and changes of the move limit (no reset, no new grid). -/
def withinGame : Event → Bool
  | Event.click _ => true
  | Event.timer => true
  | Event.setMaxMoves _ => true
  | _ => false

/-- The number of distinct tile ids in `solved`. -/
def distinctSolved (s : State) : Nat :=
  s.solved.dedup.length

/-! ## The deck -/

theorem length_numbers (n : Nat) : (numbers n).length = n := by
  simp [numbers]

theorem nodup_numbers (n : Nat) : (numbers n).Nodup := by
  unfold numbers
  exact (List.nodup_range n).map (fun a b h => by simpa using h)

theorem map_number_shuffledCards (g : Nat) (shuffle : List Nat → List Nat) :
    (shuffledCards g shuffle).map Card.number =
      (shuffle (numbers (g * g / 2) ++ numbers (g * g / 2))).take (g * g) := by
  simp only [shuffledCards, List.map_map]
  have h : (Card.number ∘ fun p : Nat × Nat => ({ id := p.1, number := p.2 } : Card)) = Prod.snd := by
    funext p; rfl
  rw [h, List.enum_map_snd]

theorem map_id_shuffledCards (g : Nat) (shuffle : List Nat → List Nat) :
    (shuffledCards g shuffle).map Card.id = List.range (shuffledCards g shuffle).length := by
  simp only [shuffledCards, List.map_map, List.length_map, List.enum_length]
  have h : (Card.id ∘ fun p : Nat × Nat => ({ id := p.1, number := p.2 } : Card)) = Prod.fst := by
    funext p; rfl
  rw [h, List.enum_map_fst]

theorem take_shuffle_eq (g : Nat) (shuffle : List Nat → List Nat)
    (hperm : ∀ l, (shuffle l).Perm l) :
    (shuffle (numbers (g * g / 2) ++ numbers (g * g / 2))).take (g * g) =
      shuffle (numbers (g * g / 2) ++ numbers (g * g / 2)) := by
  apply List.take_of_length_le
  rw [(hperm _).length_eq, List.length_append, length_numbers]
  omega

/-- The deck has `2 * ⌊gridSize² / 2⌋` cards: the slice of line 41 never adds one. -/
theorem length_shuffledCards (g : Nat) (shuffle : List Nat → List Nat)
    (hperm : ∀ l, (shuffle l).Perm l) :
    (shuffledCards g shuffle).length = 2 * (g * g / 2) := by
  have h := congrArg List.length (map_number_shuffledCards g shuffle)
  rw [take_shuffle_eq g shuffle hperm, List.length_map, (hperm _).length_eq,
    List.length_append, length_numbers] at h
  omega

theorem carriers_shuffledCards (g : Nat) (shuffle : List Nat → List Nat)
    (hperm : ∀ l, (shuffle l).Perm l) (v : Nat) :
    carriers (shuffledCards g shuffle) v = 0 ∨ carriers (shuffledCards g shuffle) v = 2 := by
  unfold carriers
  rw [map_number_shuffledCards, take_shuffle_eq g shuffle hperm, (hperm _).count_eq,
    List.count_append]
  by_cases hv : v ∈ numbers (g * g / 2)
  · right
    rw [List.count_eq_one_of_mem (nodup_numbers _) hv]
  · left
    rw [List.count_eq_zero_of_not_mem hv]

/-! ## The click handler -/

theorem handleClick_rejected (s : State) (id : Nat)
    (h : s.disabled = true ∨ s.won = true ∨ s.moves ≥ s.maxMoves) :
    handleClick s id = some s := by
  unfold handleClick
  rcases h with h | h | h <;> simp [h]

theorem handleClick_idle (s : State) (id : Nat) (hd : s.disabled = false)
    (hw : s.won = false) (hm : s.moves < s.maxMoves) (hf : s.flipped = []) :
    handleClick s id = some { s with flipped := [id], moves := s.moves + 1 } := by
  unfold handleClick
  simp [hd, hw, hf, Nat.not_le.mpr hm]

theorem handleClick_second (s : State) (p id : Nat) (hd : s.disabled = false)
    (hw : s.won = false) (hm : s.moves < s.maxMoves) (hf : s.flipped = [p]) (hne : id ≠ p) :
    handleClick s id =
      checkMatch s { s with disabled := true, flipped := [p, id], moves := s.moves + 1 } id := by
  unfold handleClick
  simp [hd, hw, hf, Nat.not_le.mpr hm, hne]

theorem handleClick_same (s : State) (p : Nat) (hd : s.disabled = false)
    (hw : s.won = false) (hm : s.moves < s.maxMoves) (hf : s.flipped = [p]) :
    handleClick s p = some { s with flipped := [], disabled := false } := by
  unfold handleClick
  simp [hd, hw, hf, Nat.not_le.mpr hm]

theorem handleClicks_rejected (s : State) (ids : List Nat)
    (h : s.disabled = true ∨ s.won = true ∨ s.moves ≥ s.maxMoves) :
    handleClicks s ids = some s := by
  induction ids with
  | nil => rfl
  | cons id ids ih => simp [handleClicks, handleClick_rejected s id h, ih]

/-! ## Invariants of runs -/

theorem run_invariant (P : State → Prop)
    (hstep : ∀ s e s', P s → step s e = some s' → P s')
    (s : State) (evs : List Event) (s' : State) (h0 : P s) (hrun : run s evs = some s') :
    P s' := by
  induction evs generalizing s with
  | nil =>
    simp only [run, Option.some.injEq] at hrun
    exact hrun ▸ h0
  | cons e es ih =>
    simp only [run] at hrun
    cases hs : step s e with
    | none => simp [hs] at hrun
    | some s1 =>
      rw [hs] at hrun
      exact ih s1 (hstep s e s1 h0 hs) hrun

theorem winEffect_flipped (s : State) : (winEffect s).flipped = s.flipped := by
  unfold winEffect; split <;> rfl

theorem winEffect_disabled (s : State) : (winEffect s).disabled = s.disabled := by
  unfold winEffect; split <;> rfl

theorem winEffect_solved (s : State) : (winEffect s).solved = s.solved := by
  unfold winEffect; split <;> rfl

theorem winEffect_moves (s : State) : (winEffect s).moves = s.moves := by
  unfold winEffect; split <;> rfl

theorem winEffect_maxMoves (s : State) : (winEffect s).maxMoves = s.maxMoves := by
  unfold winEffect; split <;> rfl

/-- While input is not locked at most one tile is pending. -/
theorem handleClick_pending (s s' : State) (id : Nat)
    (h : s.disabled = false → s.flipped.length ≤ 1) (hc : handleClick s id = some s') :
    s'.disabled = false → s'.flipped.length ≤ 1 := by
  unfold handleClick at hc
  split at hc
  · cases hc; exact h
  · split at hc
    · cases hc; intro _; simp
    · split at hc
      · split at hc
        · unfold checkMatch at hc
          split at hc
          · cases hc
          · split at hc
            · split at hc
              · cases hc; intro _; simp
              · cases hc; intro hd; simp at hd
            · cases hc
        · cases hc; intro _; simp
      · cases hc; exact h

theorem step_pending (s : State) (e : Event) (s' : State)
    (h : s.disabled = false → s.flipped.length ≤ 1) (hs : step s e = some s') :
    s'.disabled = false → s'.flipped.length ≤ 1 := by
  cases e with
  | click id =>
    simp only [step] at hs
    split at hs
    · cases hc : handleClick s id with
      | none => simp [hc] at hs
      | some s1 =>
        rw [hc] at hs
        simp only [Option.some.injEq] at hs
        have h1 := handleClick_pending s s1 id h hc
        split at hs
        · exact hs ▸ h1
        · rw [← hs, winEffect_flipped, winEffect_disabled]; exact h1
    · cases hs
  | timer =>
    simp only [step] at hs
    split at hs
    · cases hs; intro _; simp [timerFire]
    · cases hs
  | reset sh =>
    simp only [step, Option.some.injEq] at hs
    rw [← hs, winEffect_flipped]; intro _; simp [initializeGame]
  | gridSize size sh =>
    simp only [step] at hs
    split at hs
    · cases hs
      unfold handleGridSizeChange
      split <;> exact h
    · cases hs
      rw [winEffect_flipped]; intro _; simp [initializeGame]
  | setMaxMoves m =>
    simp only [step, Option.some.injEq] at hs
    rw [← hs]
    unfold handleMaxMoves
    split <;> exact h

theorem reachable_pending (s : State) (hr : Reachable s) :
    s.disabled = false → s.flipped.length ≤ 1 := by
  obtain ⟨g, sh, evs, _, _, _, _, hrun⟩ := hr
  refine run_invariant (fun t => t.disabled = false → t.flipped.length ≤ 1)
    (fun a e b => step_pending a e b) _ evs s ?_ hrun
  intro _
  simp [freshGame, winEffect_flipped, initializeGame]

end MemoryGame

open MemoryGame

/-- C1 (code at the failing input): on the 2×2 deck `1 2 1 2` the pair of tiles 0
and 2 is matched twice; `solved` then has as many entries as the deck has cards,
so the game is reported won although tiles 1 and 3 were never matched. -/
theorem won_reported_with_unmatched_tiles :
    ∃ s, run (freshGame 2 id) (clicks [0, 2, 0, 2]) = some s ∧
      s.won = true ∧ outcome s = Outcome.Won ∧ s.moves = 4 ∧ s.maxMoves = 6 ∧
      s.solved = [0, 2, 0, 2] ∧ s.cards.length = 4 ∧ 1 ∉ s.solved ∧ 3 ∉ s.solved := by
  refine ⟨_, rfl, ?_⟩
  decide

/-- C2 (code at the failing input): for grid size 3 the deck built by
`initializeGame` has 8 cards, not 3 * 3 = 9. -/
theorem deck_of_grid_three_has_eight_cards :
    (initializeGame { mountState with gridSize := 3 } id).cards.length = 8 ∧
      (initializeGame { mountState with gridSize := 3 } id).cards.length ≠ 3 * 3 := by
  decide

/-- C3: in the deck built by `initializeGame` for any grid size (in particular
for 2 ≤ gridSize ≤ 10) with a shuffle that permutes its input, every number that occurs is carried by exactly two cards or by exactly
one, at most one number is carried by exactly one card, and the card at position
`i` has id `i`, so that the ids are pairwise distinct and are exactly the
numbers below the length of the deck. -/
theorem initializeGame_pairs_and_ids (s : State) (shuffle : List Nat → List Nat)
    (hperm : ∀ l, (shuffle l).Perm l) :
    (∀ c ∈ (initializeGame s shuffle).cards,
        carriers (initializeGame s shuffle).cards c.number = 2 ∨
        carriers (initializeGame s shuffle).cards c.number = 1) ∧
    (∀ v w, carriers (initializeGame s shuffle).cards v = 1 →
        carriers (initializeGame s shuffle).cards w = 1 → v = w) ∧
    (∀ i (h : i < (initializeGame s shuffle).cards.length),
        ((initializeGame s shuffle).cards.get ⟨i, h⟩).id = i) ∧
    ((initializeGame s shuffle).cards.map Card.id).Nodup ∧
    (∀ i, i ∈ (initializeGame s shuffle).cards.map Card.id ↔
        i < (initializeGame s shuffle).cards.length) := by
  have hcards : (initializeGame s shuffle).cards = shuffledCards s.gridSize shuffle := rfl
  rw [hcards]
  have hc := carriers_shuffledCards s.gridSize shuffle hperm
  have hid := map_id_shuffledCards s.gridSize shuffle
  refine ⟨?_, ?_, ?_, ?_, ?_⟩
  · intro c hmem
    rcases hc c.number with h0 | h2
    · exfalso
      have : c.number ∈ (shuffledCards s.gridSize shuffle).map Card.number :=
        List.mem_map_of_mem _ hmem
      exact (List.count_pos_iff.mpr this).ne (by simpa [carriers] using h0.symm)
    · exact Or.inl h2
  · intro v w hv hw
    rcases hc v with h | h <;> omega
  · intro i h
    have h1 : ((shuffledCards s.gridSize shuffle).map Card.id)[i]? = some i := by
      rw [hid]; simp [List.getElem?_range, h]
    simpa [List.getElem?_map, List.getElem?_eq_getElem h] using h1
  · rw [hid]; exact List.nodup_range _
  · intro i
    rw [hid]; exact List.mem_range

/-- Witness for C3: the 4×4 deck built with the identity as the shuffle. -/
theorem initializeGame_pairs_and_ids_witness :
    (∀ c ∈ (initializeGame mountState id).cards,
        carriers (initializeGame mountState id).cards c.number = 2 ∨
        carriers (initializeGame mountState id).cards c.number = 1) ∧
    (∀ v w, carriers (initializeGame mountState id).cards v = 1 →
        carriers (initializeGame mountState id).cards w = 1 → v = w) ∧
    (∀ i (h : i < (initializeGame mountState id).cards.length),
        ((initializeGame mountState id).cards.get ⟨i, h⟩).id = i) ∧
    ((initializeGame mountState id).cards.map Card.id).Nodup ∧
    (∀ i, i ∈ (initializeGame mountState id).cards.map Card.id ↔
        i < (initializeGame mountState id).cards.length) :=
  initializeGame_pairs_and_ids mountState id (fun l => List.Perm.refl l)

/-- C4 (counterexample): after tiles 0 and 2 of the 2×2 deck `1 2 1 2` were
matched the game is in progress and tile 0 is in `solved`, yet `handleClick 0`
is accepted: it changes the state. -/
theorem solved_tile_click_is_accepted :
    ∃ s, run (freshGame 2 id) (clicks [0, 2]) = some s ∧ Reachable s ∧
      outcome s = Outcome.InProgress ∧ 0 ∈ s.solved ∧ handleClick s 0 ≠ some s := by
  refine ⟨_, rfl, ⟨2, id, clicks [0, 2], by decide, by decide, fun l => List.Perm.refl l,
    rfl, rfl⟩, ?_⟩
  decide

/-- C4 (amended): in a reachable state whose outcome is in progress, a click on
a tile that is already in `solved` leaves the state unchanged exactly when input
is locked; membership in `solved` is not examined, and when nothing is pending
and input is not locked the click reveals the tile and charges a move. -/
theorem handleClick_solved_unchanged_iff_locked (s : State) (id : Nat)
    (hr : Reachable s) (hp : outcome s = Outcome.InProgress) (_hid : id ∈ s.solved) :
    (handleClick s id = some s ↔ s.disabled = true) ∧
    (s.disabled = false → s.flipped = [] →
      handleClick s id = some { s with flipped := [id], moves := s.moves + 1 }) := by
  have hw : s.won = false := by
    unfold outcome at hp
    cases h : s.won <;> simp_all
  have hm : s.moves < s.maxMoves := by
    unfold outcome at hp
    by_contra hge
    simp [hw, Nat.not_lt.mp hge] at hp
  refine ⟨⟨?_, fun hd => handleClick_rejected s id (Or.inl hd)⟩,
    fun hd hf => handleClick_idle s id hd hw hm hf⟩
  intro hc
  by_contra hd
  have hd : s.disabled = false := by simpa using hd
  have hlen := reachable_pending s hr hd
  match hfl : s.flipped with
  | [] =>
    rw [handleClick_idle s id hd hw hm hfl] at hc
    have := congrArg State.moves (Option.some.inj hc)
    simp at this
  | [p] =>
    by_cases hne : id = p
    · subst hne
      rw [handleClick_same s id hd hw hm hfl] at hc
      have := congrArg State.flipped (Option.some.inj hc)
      simp [hfl] at this
    · rw [handleClick_second s p id hd hw hm hfl hne] at hc
      unfold checkMatch at hc
      split at hc
      · cases hc
      · split at hc
        · split at hc
          · have := congrArg State.moves (Option.some.inj hc)
            simp at this
          · have := congrArg State.moves (Option.some.inj hc)
            simp at this
        · cases hc
  | _ :: _ :: _ =>
    rw [hfl] at hlen
    simp at hlen

/-- Witness for C4 (amended): the state after tiles 0 and 2 of the 2×2 deck
`1 2 1 2` were matched, and a click on the solved tile 0. -/
theorem handleClick_solved_unchanged_iff_locked_witness :
    Reachable { freshGame 2 id with solved := [0, 2], moves := 2 } ∧
    outcome { freshGame 2 id with solved := [0, 2], moves := 2 } = Outcome.InProgress ∧
    0 ∈ ({ freshGame 2 id with solved := [0, 2], moves := 2 } : State).solved ∧
    ((handleClick { freshGame 2 id with solved := [0, 2], moves := 2 } 0 =
        some { freshGame 2 id with solved := [0, 2], moves := 2 } ↔
      ({ freshGame 2 id with solved := [0, 2], moves := 2 } : State).disabled = true) ∧
     (({ freshGame 2 id with solved := [0, 2], moves := 2 } : State).disabled = false →
      ({ freshGame 2 id with solved := [0, 2], moves := 2 } : State).flipped = [] →
      handleClick { freshGame 2 id with solved := [0, 2], moves := 2 } 0 =
        some { ({ freshGame 2 id with solved := [0, 2], moves := 2 } : State) with
          flipped := [0]
          moves := ({ freshGame 2 id with solved := [0, 2], moves := 2 } : State).moves + 1 })) :=
  have hr : Reachable { freshGame 2 id with solved := [0, 2], moves := 2 } :=
    ⟨2, id, clicks [0, 2], by decide, by decide, fun l => List.Perm.refl l, rfl, by decide⟩
  ⟨hr, by decide, by decide,
    handleClick_solved_unchanged_iff_locked _ 0 hr (by decide) (by decide)⟩

/-- C5 (counterexample): after tiles 0 and 2 of the 2×2 deck `1 2 1 2` were
matched, a click on tile 0 puts it in `flipped` while it is in `solved`. -/
theorem solved_tile_becomes_pending :
    ∃ s, run (freshGame 2 id) (clicks [0, 2, 0]) = some s ∧ Reachable s ∧
      0 ∈ s.flipped ∧ 0 ∈ s.solved := by
  refine ⟨_, rfl, ⟨2, id, clicks [0, 2, 0], by decide, by decide, fun l => List.Perm.refl l,
    rfl, rfl⟩, ?_⟩
  decide

theorem handleClick_disjoint (s s' : State) (id : Nat)
    (h : ∀ x ∈ s.flipped, x ∉ s.solved) (hid : id ∉ s.solved)
    (hc : handleClick s id = some s') : ∀ x ∈ s'.flipped, x ∉ s'.solved := by
  unfold handleClick at hc
  split at hc
  · cases hc; exact h
  · split at hc
    · cases hc
      intro x hx
      have : x = id := by simpa using hx
      exact this ▸ hid
    · split at hc
      · split at hc
        · unfold checkMatch at hc
          split at hc
          · cases hc
          · split at hc
            · split at hc
              · cases hc; intro x hx; simp at hx
              · cases hc
                intro x hx
                rcases List.mem_append.mp hx with hx | hx
                · exact h x hx
                · have : x = id := by simpa using hx
                  exact this ▸ hid
            · cases hc
        · cases hc; intro x hx; simp at hx
      · cases hc; exact h

theorem step_disjoint (s : State) (e : Event) (s' : State)
    (h : ∀ x ∈ s.flipped, x ∉ s.solved) (hsel : selectsUnsolved s [e] = true)
    (hs : step s e = some s') : ∀ x ∈ s'.flipped, x ∉ s'.solved := by
  cases e with
  | click id =>
    have hid : id ∉ s.solved := by
      simp only [selectsUnsolved, Bool.and_eq_true] at hsel
      simpa using hsel.1
    simp only [step] at hs
    split at hs
    · cases hc : handleClick s id with
      | none => simp [hc] at hs
      | some s1 =>
        rw [hc] at hs
        simp only [Option.some.injEq] at hs
        have h1 := handleClick_disjoint s s1 id h hid hc
        split at hs
        · exact hs ▸ h1
        · rw [← hs, winEffect_flipped, winEffect_solved]; exact h1
    · cases hs
  | timer =>
    simp only [step] at hs
    split at hs
    · cases hs; intro x hx; simp [timerFire] at hx
    · cases hs
  | reset sh =>
    simp only [step, Option.some.injEq] at hs
    rw [← hs, winEffect_flipped]; intro x hx; simp [initializeGame] at hx
  | gridSize size sh =>
    simp only [step] at hs
    split at hs
    · cases hs
      unfold handleGridSizeChange
      split <;> exact h
    · cases hs
      rw [winEffect_flipped]; intro x hx; simp [initializeGame] at hx
  | setMaxMoves m =>
    simp only [step, Option.some.injEq] at hs
    rw [← hs]
    unfold handleMaxMoves
    split <;> exact h

theorem run_disjoint (s : State) (evs : List Event) (s' : State)
    (h : ∀ x ∈ s.flipped, x ∉ s.solved) (hsel : selectsUnsolved s evs = true)
    (hrun : run s evs = some s') : ∀ x ∈ s'.flipped, x ∉ s'.solved := by
  induction evs generalizing s with
  | nil =>
    simp only [run, Option.some.injEq] at hrun
    exact hrun ▸ h
  | cons e es ih =>
    simp only [run] at hrun
    cases hs : step s e with
    | none => simp [hs] at hrun
    | some s1 =>
      rw [hs] at hrun
      simp only [selectsUnsolved, hs, Bool.and_eq_true] at hsel
      refine ih s1 (step_disjoint s e s1 h ?_ hs) hsel.2 hrun
      simp only [selectsUnsolved, hs, Bool.and_eq_true, and_true]
      exact hsel.1

/-- C5 (amended): in every state reached from a fresh game by a sequence of
events (tile selections and timer firings in particular) in which each
selection picks a tile that is not in `solved` at that moment, no tile id is
both in `flipped` and in `solved`. -/
theorem flipped_disjoint_solved_of_unsolved_selections (gridSize : Nat)
    (shuffle : List Nat → List Nat) (evs : List Event) (s : State)
    (hsel : selectsUnsolved (freshGame gridSize shuffle) evs = true)
    (hrun : run (freshGame gridSize shuffle) evs = some s) :
    ∀ id, id ∈ s.flipped → id ∉ s.solved := by
  refine run_disjoint (freshGame gridSize shuffle) evs s ?_ hsel hrun
  intro x hx
  simp [freshGame, winEffect_flipped, initializeGame] at hx

/-- Witness for C5 (amended): on the 2×2 deck `1 2 1 2`, tiles 0 and 2 are
matched and then the unsolved tile 1 is selected and is pending. -/
theorem flipped_disjoint_solved_of_unsolved_selections_witness :
    selectsUnsolved (freshGame 2 id) (clicks [0, 2, 1]) = true ∧
    run (freshGame 2 id) (clicks [0, 2, 1]) =
      some { freshGame 2 id with flipped := [1], solved := [0, 2], moves := 3 } ∧
    ∀ x, x ∈ ({ freshGame 2 id with flipped := [1], solved := [0, 2], moves := 3 } : State).flipped →
      x ∉ ({ freshGame 2 id with flipped := [1], solved := [0, 2], moves := 3 } : State).solved :=
  ⟨by decide, by decide,
    flipped_disjoint_solved_of_unsolved_selections 2 id (clicks [0, 2, 1])
      { freshGame 2 id with flipped := [1], solved := [0, 2], moves := 3 } (by decide) (by decide)⟩

/-- C6: in an accepting state (not locked, not won, `moves < maxMoves`) with
exactly one pending tile `p`, a click on another tile `id` whose card carries the
same number as the card of `p` empties `flipped`, appends `p` and `id` to
`solved`, charges one move and leaves input unlocked; no timeout is scheduled
(`timers` is unchanged) and nothing else changes. -/
theorem handleClick_match (s : State) (p id : Nat) (cp cid : Card)
    (hd : s.disabled = false) (hw : s.won = false) (hm : s.moves < s.maxMoves)
    (hf : s.flipped = [p]) (hne : id ≠ p)
    (hp : s.cards[p]? = some cp) (hid : s.cards[id]? = some cid)
    (hv : cid.number = cp.number) :
    handleClick s id =
      some { s with
        flipped := []
        solved := s.solved ++ [p, id]
        moves := s.moves + 1
        disabled := false } := by
  rw [handleClick_second s p id hd hw hm hf hne]
  simp [checkMatch, hf, hp, hid, hv]

/-- Witness for C6: on the 2×2 deck `1 2 1 2` tile 0 is pending and tile 2,
which carries the same number, is selected. -/
theorem handleClick_match_witness :
    handleClick { freshGame 2 id with flipped := [0], moves := 1 } 2 =
      some { freshGame 2 id with flipped := [], solved := [0, 2], moves := 2 } :=
  handleClick_match { freshGame 2 id with flipped := [0], moves := 1 } 0 2 ⟨0, 1⟩ ⟨2, 1⟩
    rfl rfl (by decide) rfl (by decide) rfl rfl rfl

/-- C7: in an accepting state with exactly one pending tile `p`, a click on
another tile `id` whose card carries a different number yields a state in which
`flipped` is `[p, id]`, `moves` is one more, `solved` is unchanged, input is
locked and the timeout is pending; in that state every call of `handleClick`,
and every sequence of such calls, for any ids, leaves the state unchanged, and
the lock is released by the timeout callback. -/
theorem handleClick_mismatch_window (s : State) (p id : Nat) (cp cid : Card)
    (hd : s.disabled = false) (hw : s.won = false) (hm : s.moves < s.maxMoves)
    (hf : s.flipped = [p]) (hne : id ≠ p)
    (hp : s.cards[p]? = some cp) (hid : s.cards[id]? = some cid)
    (hv : cid.number ≠ cp.number) :
    ∃ s', handleClick s id = some s' ∧
      s'.flipped = [p, id] ∧ s'.moves = s.moves + 1 ∧ s'.solved = s.solved ∧
      s'.disabled = true ∧ s'.timers = s.timers + 1 ∧
      (∀ j, handleClick s' j = some s') ∧
      (∀ js, handleClicks s' js = some s') ∧
      (timerFire s').disabled = false ∧ (timerFire s').flipped = [] := by
  let s' : State :=
    { s with
      disabled := true
      flipped := [p, id]
      moves := s.moves + 1
      timers := s.timers + 1 }
  refine ⟨s', ?_, rfl, rfl, rfl, rfl, rfl, ?_, ?_, rfl, rfl⟩
  · rw [handleClick_second s p id hd hw hm hf hne]
    simp [checkMatch, hf, hp, hid, Ne.symm hv]
  · intro j
    exact handleClick_rejected _ j (Or.inl rfl)
  · intro js
    exact handleClicks_rejected _ js (Or.inl rfl)

/-- Witness for C7: on the 2×2 deck `1 2 1 2` tile 0 is pending and tile 1,
which carries another number, is selected. -/
theorem handleClick_mismatch_window_witness :
    ∃ s', handleClick { freshGame 2 id with flipped := [0], moves := 1 } 1 = some s' ∧
      s'.flipped = [0, 1] ∧ s'.moves = 1 + 1 ∧ s'.solved = [] ∧
      s'.disabled = true ∧ s'.timers = 0 + 1 ∧
      (∀ j, handleClick s' j = some s') ∧
      (∀ js, handleClicks s' js = some s') ∧
      (timerFire s').disabled = false ∧ (timerFire s').flipped = [] :=
  handleClick_mismatch_window { freshGame 2 id with flipped := [0], moves := 1 } 0 1
    ⟨0, 1⟩ ⟨1, 2⟩ rfl rfl (by decide) rfl (by decide) rfl rfl (by decide)

/-- C9: in an accepting state (not locked, not won, `moves < maxMoves`) with no
pending tile, a click on any tile `id` (an unsolved one in particular) yields
the state in which `flipped` is `[id]` and `moves` is one more; `solved`, the
deck, `maxMoves`, the lock and everything else are unchanged. -/
theorem handleClick_first_reveal (s : State) (id : Nat)
    (hd : s.disabled = false) (hw : s.won = false) (hm : s.moves < s.maxMoves)
    (hf : s.flipped = []) (_hid : id ∉ s.solved) :
    handleClick s id = some { s with flipped := [id], moves := s.moves + 1 } ∧
    ∀ s', handleClick s id = some s' →
      s'.flipped = [id] ∧ s'.moves = s.moves + 1 ∧ s'.solved = s.solved ∧
      s'.cards = s.cards ∧ s'.maxMoves = s.maxMoves ∧ s'.disabled = s.disabled := by
  have h := handleClick_idle s id hd hw hm hf
  refine ⟨h, ?_⟩
  intro s' hs
  rw [h] at hs
  cases hs
  exact ⟨rfl, rfl, rfl, rfl, rfl, rfl⟩

/-- Witness for C9: the first selection of a fresh 2×2 game. -/
theorem handleClick_first_reveal_witness :
    handleClick (freshGame 2 id) 3 =
      some { freshGame 2 id with flipped := [3], moves := (freshGame 2 id).moves + 1 } ∧
    ∀ s', handleClick (freshGame 2 id) 3 = some s' →
      s'.flipped = [3] ∧ s'.moves = (freshGame 2 id).moves + 1 ∧
      s'.solved = (freshGame 2 id).solved ∧ s'.cards = (freshGame 2 id).cards ∧
      s'.maxMoves = (freshGame 2 id).maxMoves ∧ s'.disabled = (freshGame 2 id).disabled :=
  handleClick_first_reveal (freshGame 2 id) 3 rfl rfl (by decide) rfl (by decide)

theorem timerFire_frame (t : State) :
    (timerFire t).moves = t.moves ∧ (timerFire t).solved = t.solved ∧
      outcome (timerFire t) = outcome t :=
  ⟨rfl, rfl, rfl⟩

/-- C8 (code at the failing input): a reset inside the mismatch window of the
2×2 game `1 2 1 2` leaves a state with no pending tile and the whole budget of 6
moves in which input is still locked, because `initializeGame` does not reset
`disabled`; the selections of the unsolved tiles 0 and 1, which carry different
numbers, are ignored, and after the timeout `moves` is what it was, not 2 more. -/
theorem locked_state_ignores_two_selections :
    ∃ s s', run (freshGame 2 id) [Event.click 0, Event.click 1, Event.reset id] = some s ∧
      s.flipped = [] ∧ s.moves + 2 ≤ s.maxMoves ∧ 0 ∉ s.solved ∧ 1 ∉ s.solved ∧
      s.cards[0]? = some ⟨0, 1⟩ ∧ s.cards[1]? = some ⟨1, 2⟩ ∧
      run s [Event.click 0, Event.click 1, Event.timer] = some s' ∧
      s'.moves = s.moves ∧ s'.moves ≠ s.moves + 2 := by
  refine ⟨_, _, rfl, ?_, ?_, ?_, ?_, ?_, ?_, rfl, ?_, ?_⟩ <;> decide

/-- Scenario B where input is accepted: in a state that is not locked and not
won, with no pending tile and at least two moves of budget left, selecting two
distinct unsolved tiles whose cards carry different numbers and letting the
timeout fire yields a
state in which `flipped` is empty, `isFlipped` is false for both tiles, `solved`
is what it was and `moves` is 2 more; the timeout callback itself changes
neither `moves` nor `solved` nor the outcome, in any state. -/
theorem mismatched_pair_is_hidden_again (s : State) (a b : Nat) (ca cb : Card)
    (hd : s.disabled = false) (hw : s.won = false) (hf : s.flipped = [])
    (hm : s.moves + 2 ≤ s.maxMoves) (hab : a ≠ b)
    (ha : a ∉ s.solved) (hb : b ∉ s.solved)
    (hca : s.cards[a]? = some ca) (hcb : s.cards[b]? = some cb)
    (hv : ca.number ≠ cb.number) :
    (∃ s', run s [Event.click a, Event.click b, Event.timer] = some s' ∧
      s'.flipped = [] ∧ isFlipped s' a = false ∧ isFlipped s' b = false ∧
      s'.solved = s.solved ∧ s'.moves = s.moves + 2) ∧
    (∀ t, (timerFire t).moves = t.moves ∧ (timerFire t).solved = t.solved ∧
      outcome (timerFire t) = outcome t) := by
  refine ⟨?_, timerFire_frame⟩
  have hla : a < s.cards.length := (List.getElem?_eq_some_iff.mp hca).1
  have hlb : b < s.cards.length := (List.getElem?_eq_some_iff.mp hcb).1
  let s1 : State := { s with flipped := [a], moves := s.moves + 1 }
  let s2 : State :=
    { s1 with
      disabled := true
      flipped := [a, b]
      moves := s1.moves + 1
      timers := s1.timers + 1 }
  have h1 : step s (Event.click a) = some s1 := by
    simp only [step, hla, if_true, handleClick_idle s a hd hw (by omega) hf]
  have h2 : step s1 (Event.click b) = some s2 := by
    have hc : handleClick s1 b = some s2 := by
      rw [handleClick_second s1 a b hd hw (show s.moves + 1 < s.maxMoves by omega) rfl
        (Ne.symm hab)]
      simp [checkMatch, s1, s2, hca, hcb, hv]
    have hlb1 : b < s1.cards.length := hlb
    simp only [step, hlb1, if_true, hc]
  have h3 : step s2 Event.timer = some (timerFire s2) := by
    simp [step, s2]
  refine ⟨timerFire s2, ?_, rfl, ?_, ?_, rfl, rfl⟩
  · simp only [run, h1, h2, h3]
  · simp [isFlipped, timerFire, s2, s1, ha]
  · simp [isFlipped, timerFire, s2, s1, hb]

/-- Scenario B on tiles 0 and 1 of a fresh 2×2 game `1 2 1 2`. -/
theorem mismatched_pair_is_hidden_again_witness :
    (∃ s', run (freshGame 2 id) [Event.click 0, Event.click 1, Event.timer] = some s' ∧
      s'.flipped = [] ∧ isFlipped s' 0 = false ∧ isFlipped s' 1 = false ∧
      s'.solved = (freshGame 2 id).solved ∧ s'.moves = (freshGame 2 id).moves + 2) ∧
    (∀ t, (timerFire t).moves = t.moves ∧ (timerFire t).solved = t.solved ∧
      outcome (timerFire t) = outcome t) :=
  mismatched_pair_is_hidden_again (freshGame 2 id) 0 1 ⟨0, 1⟩ ⟨1, 2⟩ rfl rfl rfl
    (by decide) (by decide) (by decide) (by decide) rfl rfl (by decide)

theorem handleClick_maxMoves (s s' : State) (id : Nat) (hc : handleClick s id = some s') :
    s'.maxMoves = s.maxMoves := by
  unfold handleClick at hc
  split at hc
  · cases hc; rfl
  · split at hc
    · cases hc; rfl
    · split at hc
      · split at hc
        · unfold checkMatch at hc
          split at hc
          · cases hc
          · split at hc
            · split at hc <;> (cases hc; rfl)
            · cases hc
        · cases hc; rfl
      · cases hc; rfl

theorem run_play_maxMoves (s : State) (evs : List Event) (s' : State)
    (hplay : playOnly evs = true) (hrun : run s evs = some s') :
    s'.maxMoves = s.maxMoves := by
  induction evs generalizing s with
  | nil =>
    simp only [run, Option.some.injEq] at hrun
    exact hrun ▸ rfl
  | cons e es ih =>
    simp only [run] at hrun
    cases hs : step s e with
    | none => simp [hs] at hrun
    | some s1 =>
      rw [hs] at hrun
      cases e with
      | click id =>
        have h1 : s1.maxMoves = s.maxMoves := by
          simp only [step] at hs
          split at hs
          · cases hc : handleClick s id with
            | none => simp [hc] at hs
            | some s2 =>
              rw [hc] at hs
              simp only [Option.some.injEq] at hs
              have h2 := handleClick_maxMoves s s2 id hc
              split at hs
              · exact hs ▸ h2
              · rw [← hs, winEffect_maxMoves]; exact h2
          · cases hs
        rw [ih s1 (by simpa [playOnly] using hplay) hrun, h1]
      | timer =>
        have h1 : s1.maxMoves = s.maxMoves := by
          simp only [step] at hs
          split at hs
          · cases hs; rfl
          · cases hs
        rw [ih s1 (by simpa [playOnly] using hplay) hrun, h1]
      | reset sh => simp [playOnly] at hplay
      | gridSize size sh => simp [playOnly] at hplay
      | setMaxMoves m => simp [playOnly] at hplay

/-- The guard of line 77: in a state whose outcome is not in progress (`won` is
set or `moves ≥ maxMoves`) `handleClick` leaves the whole state unchanged for
every id; and when a game with a move limit of 4 and no move made is played
(selections and timer firings) up to four charged reveals and `won` is not
set, the outcome is `Lost` and a further selection of any tile changes nothing. -/
theorem handleClick_unchanged_when_over :
    (∀ (s : State) (id : Nat), outcome s ≠ Outcome.InProgress → handleClick s id = some s) ∧
    (∀ (s0 : State) (evs : List Event) (s : State),
      s0.moves = 0 → s0.maxMoves = 4 → playOnly evs = true → run s0 evs = some s →
      s.moves = 4 → s.won = false →
      outcome s = Outcome.Lost ∧ ∀ id, handleClick s id = some s ∧
        step s (Event.click id) = (if id < s.cards.length then some s else none)) := by
  constructor
  · intro s id h
    apply handleClick_rejected
    unfold outcome at h
    by_cases hw : s.won = true
    · exact Or.inr (Or.inl hw)
    · by_cases hm : s.moves ≥ s.maxMoves
      · exact Or.inr (Or.inr hm)
      · simp [hw, hm] at h
  · intro s0 evs s _ hmax hplay hrun hmoves hw
    have hmm : s.maxMoves = 4 := by rw [run_play_maxMoves s0 evs s hplay hrun, hmax]
    have hge : s.moves ≥ s.maxMoves := by omega
    have hrej : ∀ id, handleClick s id = some s :=
      fun id => handleClick_rejected s id (Or.inr (Or.inr hge))
    refine ⟨by simp [outcome, hw, hge], fun id => ⟨hrej id, ?_⟩⟩
    simp [step, hrej id]

/-- C10 (code at the failing input): the 2×2 game `1 2 1 2` with the move limit
set to 4.  Tiles 0 and 2 are matched twice, which uses the four moves and
completes one pair only (tiles 1 and 3 are never matched); the outcome shown is
`Won`, not `Lost`.  A fifth selection changes nothing. -/
theorem outcome_at_limit_with_unmatched_tiles_is_won :
    ∃ s, run (handleMaxMoves (freshGame 2 id) 4) (clicks [0, 2, 0, 2]) = some s ∧
      s.maxMoves = 4 ∧ s.moves = 4 ∧ 1 ∉ s.solved ∧ 3 ∉ s.solved ∧
      outcome s = Outcome.Won ∧ outcome s ≠ Outcome.Lost ∧
      handleClick s 1 = some s := by
  refine ⟨_, rfl, ?_⟩
  decide

/-- C11: in an accepting state with exactly one pending tile `p`, `handleClick p`
yields the state in which `flipped` is empty and input is not locked; `moves`
and `solved` (and every other field) are what they were, so the cancel charges
no move and the move charged by the original reveal stands. -/
theorem handleClick_cancel (s : State) (p : Nat)
    (hd : s.disabled = false) (hw : s.won = false) (hm : s.moves < s.maxMoves)
    (hf : s.flipped = [p]) :
    handleClick s p = some { s with flipped := [] } ∧
    ∀ s', handleClick s p = some s' →
      s'.flipped = [] ∧ s'.disabled = false ∧ s'.moves = s.moves ∧ s'.solved = s.solved := by
  have h : handleClick s p = some { s with flipped := [] } := by
    rw [handleClick_same s p hd hw hm hf, ← hd]
  refine ⟨h, ?_⟩
  intro s' hs
  rw [h] at hs
  cases hs
  exact ⟨rfl, hd, rfl, rfl⟩

/-- Witness for C11: tile 0 of the 2×2 game `1 2 1 2` is pending and is
selected again. -/
theorem handleClick_cancel_witness :
    handleClick { freshGame 2 id with flipped := [0], moves := 1 } 0 =
      some { ({ freshGame 2 id with flipped := [0], moves := 1 } : State) with flipped := [] } ∧
    ∀ s', handleClick { freshGame 2 id with flipped := [0], moves := 1 } 0 = some s' →
      s'.flipped = [] ∧ s'.disabled = false ∧
      s'.moves = ({ freshGame 2 id with flipped := [0], moves := 1 } : State).moves ∧
      s'.solved = ({ freshGame 2 id with flipped := [0], moves := 1 } : State).solved :=
  handleClick_cancel { freshGame 2 id with flipped := [0], moves := 1 } 0 rfl rfl
    (by decide) rfl

/-- C12 (counterexample): in the fresh 2×2 game `1 2 1 2` selecting tile 0 twice
in a row does not give back the fresh game: one move is charged. -/
theorem double_click_charges_a_move :
    (freshGame 2 id).disabled = false ∧ (freshGame 2 id).won = false ∧
    (freshGame 2 id).moves < (freshGame 2 id).maxMoves ∧ (freshGame 2 id).flipped = [] ∧
    handleClicks (freshGame 2 id) [0, 0] = some { freshGame 2 id with moves := 1 } ∧
    handleClicks (freshGame 2 id) [0, 0] ≠ some (freshGame 2 id) := by
  decide

/-- C12 (amended): in an accepting state `s` with no pending tile, `handleClick id`
followed by `handleClick id` yields a state whose `moves` is one more than in
`s` (the move charged by the first reveal stands), so the state is never `s`
again.  When a second move is left the state is otherwise equal to `s`, with no
pending tile; when the first reveal used the last move the second call is
rejected and `id` stays pending. -/
theorem handleClick_twice (s : State) (id : Nat)
    (hd : s.disabled = false) (hw : s.won = false) (hm : s.moves < s.maxMoves)
    (hf : s.flipped = []) :
    (s.moves + 1 < s.maxMoves →
      handleClicks s [id, id] = some { s with moves := s.moves + 1 }) ∧
    (s.moves + 1 = s.maxMoves →
      handleClicks s [id, id] = some { s with flipped := [id], moves := s.moves + 1 }) ∧
    (∃ s', handleClicks s [id, id] = some s' ∧ s'.moves = s.moves + 1 ∧ s' ≠ s) := by
  have h1 := handleClick_idle s id hd hw hm hf
  have hlt : s.moves + 1 < s.maxMoves →
      handleClicks s [id, id] = some { s with moves := s.moves + 1 } := by
    intro h
    have h2 := handleClick_same { s with flipped := [id], moves := s.moves + 1 } id hd hw h rfl
    simp only [handleClicks, h1, h2]
    rw [← hd, ← hf]
  have heq : s.moves + 1 = s.maxMoves →
      handleClicks s [id, id] = some { s with flipped := [id], moves := s.moves + 1 } := by
    intro h
    have h2 := handleClick_rejected { s with flipped := [id], moves := s.moves + 1 } id
      (Or.inr (Or.inr (show s.moves + 1 ≥ s.maxMoves by omega)))
    simp only [handleClicks, h1, h2]
  refine ⟨hlt, heq, ?_⟩
  have hne : ∀ t : State, t.moves = s.moves + 1 → t ≠ s := by
    intro t ht hts
    rw [hts] at ht
    omega
  by_cases h : s.moves + 1 < s.maxMoves
  · exact ⟨_, hlt h, rfl, hne _ rfl⟩
  · exact ⟨_, heq (by omega), rfl, hne _ rfl⟩

/-- Witness for C12 (amended): tile 0 of the fresh 2×2 game `1 2 1 2`. -/
theorem handleClick_twice_witness :
    ((freshGame 2 id).moves + 1 < (freshGame 2 id).maxMoves →
      handleClicks (freshGame 2 id) [0, 0] =
        some { freshGame 2 id with moves := (freshGame 2 id).moves + 1 }) ∧
    ((freshGame 2 id).moves + 1 = (freshGame 2 id).maxMoves →
      handleClicks (freshGame 2 id) [0, 0] =
        some { freshGame 2 id with flipped := [0], moves := (freshGame 2 id).moves + 1 }) ∧
    (∃ s', handleClicks (freshGame 2 id) [0, 0] = some s' ∧
      s'.moves = (freshGame 2 id).moves + 1 ∧ s' ≠ freshGame 2 id) :=
  handleClick_twice (freshGame 2 id) 0 rfl rfl (by decide) rfl

/-- C13 (code at the failing input): in the 2×2 game `1 2 1 2` tiles 0 and 1 are
selected (a mismatch) and the game is reset inside the mismatch window.  The
new game has `flipped` and `solved` empty, no move made and is in progress, but
input is still locked and the timeout of the old game is still pending: the
selection of tile 0 is ignored, and when the old timeout fires it changes the
state of the new game. -/
theorem reset_in_window_keeps_lock_and_timer :
    ∃ s, run (freshGame 2 id) [Event.click 0, Event.click 1, Event.reset id] = some s ∧
      s.flipped = [] ∧ s.solved = [] ∧ s.moves = 0 ∧ outcome s = Outcome.InProgress ∧
      s.disabled = true ∧ s.timers = 1 ∧
      handleClick s 0 = some s ∧ step s (Event.click 0) = some s ∧
      step s Event.timer = some (timerFire s) ∧ timerFire s ≠ s := by
  refine ⟨_, rfl, ?_⟩
  decide

/-- C15 (code at the failing input): for grid size 3 the deck built by
`initializeGame` has 8 cards and each of them carries a number that a second
card carries too; no card is unpairable. -/
theorem deck_of_grid_three_has_no_filler :
    (initializeGame { mountState with gridSize := 3 } id).cards.length = 8 ∧
    (∀ c ∈ (initializeGame { mountState with gridSize := 3 } id).cards,
      carriers (initializeGame { mountState with gridSize := 3 } id).cards c.number = 2) ∧
    ((initializeGame { mountState with gridSize := 3 } id).cards.filter
      (fun c => carriers (initializeGame { mountState with gridSize := 3 } id).cards
        c.number = 1)).length = 0 := by
  decide

/-- C18 (counterexample): in the 2×2 game `1 2 1 2` tiles 0 and 1 are selected
three times, which uses the six moves of the limit.  Tile 0 is in `flipped`, yet
`isFlipped 0` is false. -/
theorem pending_tile_hidden_at_move_limit :
    ∃ s, run (freshGame 2 id)
        [Event.click 0, Event.click 1, Event.timer, Event.click 0, Event.click 1,
          Event.timer, Event.click 0, Event.click 1] = some s ∧
      0 ∈ s.flipped ∧ isFlipped s 0 = false ∧
      ¬ (isFlipped s 0 = true ↔ (0 ∈ s.flipped ∨ 0 ∈ s.solved)) := by
  refine ⟨_, rfl, ?_⟩
  decide

/-- C18 (amended): for every state and every tile id, `isFlipped id` is true
exactly when `id` is in `solved`, or `id` is in `flipped` and `moves` is below
`maxMoves`; `isSolved id` is true exactly when `id` is in `solved`. -/
theorem isFlipped_iff (s : State) (id : Nat) :
    (isFlipped s id = true ↔ ((s.moves < s.maxMoves ∧ id ∈ s.flipped) ∨ id ∈ s.solved)) ∧
    (isSolved s id = true ↔ id ∈ s.solved) := by
  simp [isFlipped, isSolved]

theorem handleClick_moves_le (s s' : State) (id : Nat) (hc : handleClick s id = some s') :
    s.moves ≤ s'.moves := by
  unfold handleClick at hc
  split at hc
  · cases hc; exact Nat.le_refl _
  · split at hc
    · cases hc; exact Nat.le_succ _
    · split at hc
      · split at hc
        · unfold checkMatch at hc
          split at hc
          · cases hc
          · split at hc
            · split at hc <;> (cases hc; exact Nat.le_succ _)
            · cases hc
        · cases hc; exact Nat.le_refl _
      · cases hc; exact Nat.le_refl _

theorem outcome_eq_won_iff (s : State) : outcome s = Outcome.Won ↔ s.won = true := by
  unfold outcome
  cases hw : s.won <;> simp
  split <;> simp

theorem outcome_eq_lost_iff (s : State) :
    outcome s = Outcome.Lost ↔ s.won = false ∧ s.moves ≥ s.maxMoves := by
  unfold outcome
  cases hw : s.won <;> simp

theorem winEffect_won_of_won (s : State) (h : s.won = true) : (winEffect s).won = true := by
  unfold winEffect; split
  · rfl
  · exact h

theorem step_click_of_over (s : State) (id : Nat) (s' : State)
    (h : s.won = true ∨ s.moves ≥ s.maxMoves) (hs : step s (Event.click id) = some s') :
    s' = s := by
  simp only [step] at hs
  split at hs
  · rw [handleClick_rejected s id (Or.inr h)] at hs
    simpa using hs.symm
  · cases hs

/-- C14 (counterexample): the 2×2 game `1 2 1 2` with the move limit set to 4 is
lost after four reveals; raising the move limit to 10 through `handleMaxMoves`
puts the same game back in progress. -/
theorem raised_limit_revives_lost_game :
    ∃ s s', run (freshGame 2 id)
        [Event.setMaxMoves 4, Event.click 0, Event.click 1, Event.timer, Event.click 0,
          Event.click 1, Event.timer] = some s ∧
      outcome s = Outcome.Lost ∧ withinGame (Event.setMaxMoves 10) = true ∧
      step s (Event.setMaxMoves 10) = some s' ∧ outcome s' = Outcome.InProgress := by
  refine ⟨_, _, rfl, ?_, rfl, rfl, ?_⟩ <;> decide

/-- C14 (amended): for every tile selection, timer firing and change of the move
limit, `moves` does not decrease and a state whose outcome is `Won` is followed
by a state whose outcome is `Won`; under tile selections and timer firings a
state whose outcome is `Lost` is followed by a state whose outcome is `Lost`,
while a change of the move limit can put a lost game back in progress but never
makes it won. -/
theorem session_moves_and_outcome (s : State) (e : Event) (s' : State)
    (he : withinGame e = true) (hs : step s e = some s') :
    s.moves ≤ s'.moves ∧
    (outcome s = Outcome.Won → outcome s' = Outcome.Won) ∧
    (playOnly [e] = true → outcome s = Outcome.Lost → outcome s' = Outcome.Lost) ∧
    (outcome s = Outcome.Lost → outcome s' ≠ Outcome.Won) := by
  cases e with
  | click id =>
    have hmoves : s.moves ≤ s'.moves := by
      simp only [step] at hs
      split at hs
      · cases hc : handleClick s id with
        | none => simp [hc] at hs
        | some s1 =>
          rw [hc] at hs
          simp only [Option.some.injEq] at hs
          have h1 := handleClick_moves_le s s1 id hc
          split at hs
          · exact hs ▸ h1
          · rw [← hs, winEffect_moves]; exact h1
      · cases hs
    refine ⟨hmoves, ?_, ?_, ?_⟩
    · intro hw
      rw [step_click_of_over s id s' (Or.inl ((outcome_eq_won_iff s).mp hw)) hs]
      exact hw
    · intro _ hl
      rw [step_click_of_over s id s' (Or.inr ((outcome_eq_lost_iff s).mp hl).2) hs]
      exact hl
    · intro hl
      rw [step_click_of_over s id s' (Or.inr ((outcome_eq_lost_iff s).mp hl).2) hs, hl]
      decide
  | timer =>
    simp only [step] at hs
    split at hs
    · cases hs
      refine ⟨Nat.le_refl _, fun h => h, fun _ h => h, ?_⟩
      intro hl
      have : outcome (timerFire s) = outcome s := rfl
      rw [this, hl]
      decide
    · cases hs
  | setMaxMoves m =>
    simp only [step, Option.some.injEq] at hs
    have hwon : s'.won = s.won := by
      rw [← hs]; unfold handleMaxMoves; split <;> rfl
    have hmoves : s'.moves = s.moves := by
      rw [← hs]; unfold handleMaxMoves; split <;> rfl
    refine ⟨by omega, ?_, ?_, ?_⟩
    · intro hw
      rw [outcome_eq_won_iff] at hw ⊢
      rw [hwon]; exact hw
    · intro hp
      simp [playOnly] at hp
    · intro hl hw
      rw [outcome_eq_won_iff, hwon] at hw
      rw [outcome_eq_lost_iff] at hl
      rw [hl.1] at hw
      cases hw
  | reset sh => simp [withinGame] at he
  | gridSize size sh => simp [withinGame] at he

/-- Witness for C14 (amended): the lost 2×2 game with limit 4 and 4 moves, and
the change of the move limit to 10. -/
theorem session_moves_and_outcome_witness :
    withinGame (Event.setMaxMoves 10) = true ∧
    step { freshGame 2 id with maxMoves := 4, moves := 4 } (Event.setMaxMoves 10) =
      some { freshGame 2 id with maxMoves := 10, moves := 4 } ∧
    (({ freshGame 2 id with maxMoves := 4, moves := 4 } : State).moves ≤
        ({ freshGame 2 id with maxMoves := 10, moves := 4 } : State).moves ∧
      (outcome { freshGame 2 id with maxMoves := 4, moves := 4 } = Outcome.Won →
        outcome { freshGame 2 id with maxMoves := 10, moves := 4 } = Outcome.Won) ∧
      (playOnly [Event.setMaxMoves 10] = true →
        outcome { freshGame 2 id with maxMoves := 4, moves := 4 } = Outcome.Lost →
        outcome { freshGame 2 id with maxMoves := 10, moves := 4 } = Outcome.Lost) ∧
      (outcome { freshGame 2 id with maxMoves := 4, moves := 4 } = Outcome.Lost →
        outcome { freshGame 2 id with maxMoves := 10, moves := 4 } ≠ Outcome.Won)) :=
  ⟨rfl, by decide,
    session_moves_and_outcome { freshGame 2 id with maxMoves := 4, moves := 4 }
      (Event.setMaxMoves 10) { freshGame 2 id with maxMoves := 10, moves := 4 } rfl
      (by decide)⟩

theorem winEffect_cards (s : State) : (winEffect s).cards = s.cards := by
  unfold winEffect; split <;> rfl

theorem handleClick_flipped_small (s s' : State) (id : Nat)
    (h : s.flipped.length ≤ 2 ∧ s.flipped.Nodup) (hc : handleClick s id = some s') :
    s'.flipped.length ≤ 2 ∧ s'.flipped.Nodup := by
  unfold handleClick at hc
  split at hc
  · cases hc; exact h
  · split at hc
    · cases hc; simp
    · split at hc
      · rename_i hlen
        obtain ⟨p, hp⟩ := List.length_eq_one.mp hlen
        split at hc
        · rename_i hne
          unfold checkMatch at hc
          split at hc
          · cases hc
          · split at hc
            · split at hc
              · cases hc; simp
              · cases hc
                simp only [hp, List.head?_cons, ne_eq, Option.some.injEq] at hne
                simp [hp, Ne.symm hne]
            · cases hc
        · cases hc; simp
      · cases hc; exact h

theorem step_flipped_small (s : State) (e : Event) (s' : State)
    (h : s.flipped.length ≤ 2 ∧ s.flipped.Nodup) (hs : step s e = some s') :
    s'.flipped.length ≤ 2 ∧ s'.flipped.Nodup := by
  cases e with
  | click id =>
    simp only [step] at hs
    split at hs
    · cases hc : handleClick s id with
      | none => simp [hc] at hs
      | some s1 =>
        rw [hc] at hs
        simp only [Option.some.injEq] at hs
        have h1 := handleClick_flipped_small s s1 id h hc
        split at hs
        · exact hs ▸ h1
        · rw [← hs, winEffect_flipped]; exact h1
    · cases hs
  | timer =>
    simp only [step] at hs
    split at hs
    · cases hs; simp [timerFire]
    · cases hs
  | reset sh =>
    simp only [step, Option.some.injEq] at hs
    rw [← hs, winEffect_flipped]; simp [initializeGame]
  | gridSize size sh =>
    simp only [step] at hs
    split at hs
    · cases hs
      unfold handleGridSizeChange
      split <;> exact h
    · cases hs
      rw [winEffect_flipped]; simp [initializeGame]
  | setMaxMoves m =>
    simp only [step, Option.some.injEq] at hs
    rw [← hs]
    unfold handleMaxMoves
    split <;> exact h

/-- C17: in every state reached from a fresh game by any sequence of events
(tile selections, timer firings and resets, and also changes of the grid size
and of the move limit), `flipped` holds at most two tile ids, and when it holds
two they are distinct. -/
theorem flipped_at_most_two_distinct (gridSize : Nat) (shuffle : List Nat → List Nat)
    (evs : List Event) (s : State) (hrun : run (freshGame gridSize shuffle) evs = some s) :
    s.flipped.length ≤ 2 ∧ ∀ a b, s.flipped = [a, b] → a ≠ b := by
  have h : s.flipped.length ≤ 2 ∧ s.flipped.Nodup := by
    refine run_invariant (fun t => t.flipped.length ≤ 2 ∧ t.flipped.Nodup)
      (fun a e b => step_flipped_small a e b) _ evs s ?_ hrun
    simp [freshGame, winEffect_flipped, initializeGame]
  refine ⟨h.1, ?_⟩
  intro a b hab
  have hn := h.2
  rw [hab] at hn
  intro heq
  simp [heq] at hn

/-- Witness for C17: the 2×2 game `1 2 1 2`; tiles 0 and 1 are selected, the game
is reset inside the mismatch window, the timeout fires and tiles 2 and 3 are
selected. -/
theorem flipped_at_most_two_distinct_witness :
    run (freshGame 2 id)
        [Event.click 0, Event.click 1, Event.reset id, Event.timer, Event.click 2,
          Event.click 3] =
      some { freshGame 2 id with flipped := [2, 3], moves := 2, disabled := true, timers := 1 } ∧
    (({ freshGame 2 id with
        flipped := [2, 3], moves := 2, disabled := true, timers := 1 } : State).flipped.length ≤ 2 ∧
      ∀ a b, ({ freshGame 2 id with
        flipped := [2, 3], moves := 2, disabled := true, timers := 1 } : State).flipped = [a, b] →
        a ≠ b) :=
  ⟨by decide,
    flipped_at_most_two_distinct 2 id
      [Event.click 0, Event.click 1, Event.reset id, Event.timer, Event.click 2, Event.click 3]
      { freshGame 2 id with flipped := [2, 3], moves := 2, disabled := true, timers := 1 }
      (by decide)⟩

theorem checkMatch_isSome (s q : State) (firstId secondId : Nat)
    (hh : s.flipped.head? = some firstId) (h1 : firstId < s.cards.length)
    (h2 : secondId < s.cards.length) : ∃ s', checkMatch s q secondId = some s' := by
  unfold checkMatch
  simp only [hh, List.getElem?_eq_getElem h1, List.getElem?_eq_getElem h2]
  split <;> exact ⟨_, rfl⟩

theorem handleClick_isSome (s : State) (id : Nat)
    (h : ∀ x ∈ s.flipped, x < s.cards.length) (hid : id < s.cards.length) :
    ∃ s', handleClick s id = some s' := by
  unfold handleClick
  split
  · exact ⟨_, rfl⟩
  · split
    · exact ⟨_, rfl⟩
    · split
      · rename_i hlen
        obtain ⟨p, hp⟩ := List.length_eq_one.mp hlen
        split
        · exact checkMatch_isSome s _ p id (by simp [hp]) (h p (by simp [hp])) hid
        · exact ⟨_, rfl⟩
      · exact ⟨_, rfl⟩

theorem handleClick_ids_valid (s s' : State) (id : Nat)
    (h : (∀ x ∈ s.flipped, x < s.cards.length) ∧ (∀ x ∈ s.solved, x < s.cards.length))
    (hid : id < s.cards.length) (hc : handleClick s id = some s') :
    (∀ x ∈ s'.flipped, x < s'.cards.length) ∧ (∀ x ∈ s'.solved, x < s'.cards.length) := by
  unfold handleClick at hc
  split at hc
  · cases hc; exact h
  · split at hc
    · cases hc
      refine ⟨?_, h.2⟩
      intro x hx
      have : x = id := by simpa using hx
      exact this ▸ hid
    · split at hc
      · rename_i hlen
        obtain ⟨p, hp⟩ := List.length_eq_one.mp hlen
        have hpv : p < s.cards.length := h.1 p (by simp [hp])
        split at hc
        · unfold checkMatch at hc
          split at hc
          · cases hc
          · rename_i firstId hfirst
            have hfp : firstId = p := by simpa [hp] using hfirst.symm
            split at hc
            · split at hc
              · cases hc
                refine ⟨by intro x hx; simp at hx, ?_⟩
                intro x hx
                rcases List.mem_append.mp hx with hx | hx
                · exact h.2 x hx
                · have : x = firstId ∨ x = id := by simpa using hx
                  rcases this with hx | hx
                  · rw [hx, hfp]; exact hpv
                  · rw [hx]; exact hid
              · cases hc
                refine ⟨?_, h.2⟩
                intro x hx
                rcases List.mem_append.mp hx with hx | hx
                · exact h.1 x hx
                · have : x = id := by simpa using hx
                  exact this ▸ hid
            · cases hc
        · cases hc
          exact ⟨by intro x hx; simp at hx, h.2⟩
      · cases hc; exact h

theorem step_ids_valid (s : State) (e : Event) (s' : State)
    (h : (∀ x ∈ s.flipped, x < s.cards.length) ∧ (∀ x ∈ s.solved, x < s.cards.length))
    (hs : step s e = some s') :
    (∀ x ∈ s'.flipped, x < s'.cards.length) ∧ (∀ x ∈ s'.solved, x < s'.cards.length) := by
  cases e with
  | click id =>
    simp only [step] at hs
    split at hs
    · rename_i hid
      cases hc : handleClick s id with
      | none => simp [hc] at hs
      | some s1 =>
        rw [hc] at hs
        simp only [Option.some.injEq] at hs
        have h1 := handleClick_ids_valid s s1 id h hid hc
        split at hs
        · exact hs ▸ h1
        · rw [← hs, winEffect_flipped, winEffect_solved, winEffect_cards]; exact h1
    · cases hs
  | timer =>
    simp only [step] at hs
    split at hs
    · cases hs
      exact ⟨by intro x hx; simp [timerFire] at hx, h.2⟩
    · cases hs
  | reset sh =>
    simp only [step, Option.some.injEq] at hs
    rw [← hs, winEffect_flipped, winEffect_solved]
    constructor <;> (intro x hx; simp [initializeGame] at hx)
  | gridSize size sh =>
    simp only [step] at hs
    split at hs
    · cases hs
      unfold handleGridSizeChange
      split <;> exact h
    · cases hs
      rw [winEffect_flipped, winEffect_solved]
      constructor <;> (intro x hx; simp [initializeGame] at hx)
  | setMaxMoves m =>
    simp only [step, Option.some.injEq] at hs
    rw [← hs]
    unfold handleMaxMoves
    split <;> exact h

/-- C20: in every state reached from a fresh game by any sequence of resets,
grid size changes, timer firings, changes of the move limit and selections of
tiles of the current deck, every id in `flipped` and in `solved` is below the
length of the current deck; hence `handleClick` on a tile of the deck returns a
state, and `checkMatch`, called with a pending tile and a tile of the deck, finds
both cards. -/
theorem ids_are_deck_indices (gridSize : Nat) (shuffle : List Nat → List Nat)
    (evs : List Event) (s : State) (hrun : run (freshGame gridSize shuffle) evs = some s) :
    (∀ x ∈ s.flipped, x < s.cards.length) ∧ (∀ x ∈ s.solved, x < s.cards.length) ∧
    (∀ id, id < s.cards.length → ∃ s', handleClick s id = some s') ∧
    (∀ id firstId q, id < s.cards.length → s.flipped.head? = some firstId →
      (∃ first second, s.cards[firstId]? = some first ∧ s.cards[id]? = some second) ∧
      ∃ s', checkMatch s q id = some s') := by
  have h : (∀ x ∈ s.flipped, x < s.cards.length) ∧ (∀ x ∈ s.solved, x < s.cards.length) := by
    refine run_invariant
      (fun t => (∀ x ∈ t.flipped, x < t.cards.length) ∧ (∀ x ∈ t.solved, x < t.cards.length))
      (fun a e b => step_ids_valid a e b) _ evs s ?_ hrun
    constructor <;>
      (intro x hx; simp [freshGame, winEffect_flipped, winEffect_solved, initializeGame] at hx)
  refine ⟨h.1, h.2, fun id hid => handleClick_isSome s id h.1 hid, ?_⟩
  intro id firstId q hid hh
  have hf : firstId < s.cards.length := h.1 firstId (List.mem_of_mem_head? hh)
  exact ⟨⟨_, _, List.getElem?_eq_getElem hf, List.getElem?_eq_getElem hid⟩,
    checkMatch_isSome s q firstId id hh hf hid⟩

/-- Witness for C20: the 2×2 game `1 2 1 2`; tiles 0 and 2 are matched, the grid
size is changed to 3 and tile 7 of the new deck is selected. -/
theorem ids_are_deck_indices_witness :
    run (freshGame 2 id)
        [Event.click 0, Event.click 2, Event.gridSize 3 id, Event.click 7] =
      some { freshGame 3 id with flipped := [7], moves := 1 } ∧
    ((∀ x ∈ ({ freshGame 3 id with flipped := [7], moves := 1 } : State).flipped,
        x < ({ freshGame 3 id with flipped := [7], moves := 1 } : State).cards.length) ∧
     (∀ x ∈ ({ freshGame 3 id with flipped := [7], moves := 1 } : State).solved,
        x < ({ freshGame 3 id with flipped := [7], moves := 1 } : State).cards.length) ∧
     (∀ j, j < ({ freshGame 3 id with flipped := [7], moves := 1 } : State).cards.length →
        ∃ s', handleClick { freshGame 3 id with flipped := [7], moves := 1 } j = some s') ∧
     (∀ j firstId q,
        j < ({ freshGame 3 id with flipped := [7], moves := 1 } : State).cards.length →
        ({ freshGame 3 id with flipped := [7], moves := 1 } : State).flipped.head? =
          some firstId →
        (∃ first second,
          ({ freshGame 3 id with flipped := [7], moves := 1 } : State).cards[firstId]? =
            some first ∧
          ({ freshGame 3 id with flipped := [7], moves := 1 } : State).cards[j]? =
            some second) ∧
        ∃ s', checkMatch { freshGame 3 id with flipped := [7], moves := 1 } q j = some s')) :=
  ⟨by decide,
    ids_are_deck_indices 2 id
      [Event.click 0, Event.click 2, Event.gridSize 3 id, Event.click 7]
      { freshGame 3 id with flipped := [7], moves := 1 } (by decide)⟩

/-! ## Counting the cards that carry a number -/

theorem one_le_count_of_getElem? (l : List Nat) (v i : Nat) (hi : l[i]? = some v) :
    1 ≤ l.count v :=
  List.count_pos_iff.mpr (List.mem_iff_getElem?.mpr ⟨i, hi⟩)

theorem two_le_count_of_getElem? (l : List Nat) (v i j : Nat) (hij : i < j)
    (hi : l[i]? = some v) (hj : l[j]? = some v) : 2 ≤ l.count v := by
  induction l generalizing i j with
  | nil => simp at hi
  | cons a t ih =>
    cases j with
    | zero => omega
    | succ j =>
      rw [List.getElem?_cons_succ] at hj
      cases i with
      | zero =>
        have ha : a = v := by simpa using hi
        subst ha
        have := one_le_count_of_getElem? t a j hj
        rw [List.count_cons_self]
        omega
      | succ i =>
        rw [List.getElem?_cons_succ] at hi
        exact Nat.le_trans (ih i j (by omega) hi hj) (List.count_le_count_cons _ _ _)

theorem three_le_count_of_lt (l : List Nat) (v i j k : Nat) (hij : i < j) (hjk : j < k)
    (hi : l[i]? = some v) (hj : l[j]? = some v) (hk : l[k]? = some v) : 3 ≤ l.count v := by
  induction l generalizing i j k with
  | nil => simp at hi
  | cons a t ih =>
    cases k with
    | zero => omega
    | succ k =>
      rw [List.getElem?_cons_succ] at hk
      cases j with
      | zero => omega
      | succ j =>
        rw [List.getElem?_cons_succ] at hj
        cases i with
        | zero =>
          have ha : a = v := by simpa using hi
          subst ha
          have := two_le_count_of_getElem? t a j k (by omega) hj hk
          rw [List.count_cons_self]
          omega
        | succ i =>
          rw [List.getElem?_cons_succ] at hi
          exact Nat.le_trans (ih i j k (by omega) (by omega) hi hj hk)
            (List.count_le_count_cons _ _ _)

theorem three_le_count_of_ne (l : List Nat) (v i j k : Nat) (hij : i ≠ j) (hjk : j ≠ k)
    (hik : i ≠ k) (hi : l[i]? = some v) (hj : l[j]? = some v) (hk : l[k]? = some v) :
    3 ≤ l.count v := by
  rcases Nat.lt_or_gt_of_ne hij with h1 | h1 <;>
  rcases Nat.lt_or_gt_of_ne hjk with h2 | h2 <;>
  rcases Nat.lt_or_gt_of_ne hik with h3 | h3
  · exact three_le_count_of_lt l v i j k h1 h2 hi hj hk
  · omega
  · exact three_le_count_of_lt l v i k j h3 h2 hi hk hj
  · exact three_le_count_of_lt l v k i j h3 h1 hk hi hj
  · exact three_le_count_of_lt l v j i k h1 h3 hj hi hk
  · exact three_le_count_of_lt l v j k i h2 h3 hj hk hi
  · omega
  · exact three_le_count_of_lt l v k j i h2 h1 hk hj hi

/-- Three different positions of a deck cannot carry the same number when that
number is carried by at most two cards. -/
theorem third_carrier_absent (deck : List Card) (i j k : Nat) (ci cj ck : Card)
    (hd : carriers deck ci.number ≤ 2) (hij : i ≠ j) (hjk : j ≠ k) (hik : i ≠ k)
    (hi : deck[i]? = some ci) (hj : deck[j]? = some cj) (hk : deck[k]? = some ck)
    (hnj : cj.number = ci.number) (hnk : ck.number = ci.number) : False := by
  have h := three_le_count_of_ne (deck.map Card.number) ci.number i j k hij hjk hik
    (by simp [List.getElem?_map, hi]) (by simp [List.getElem?_map, hj, hnj])
    (by simp [List.getElem?_map, hk, hnk])
  unfold carriers at hd
  omega

/-! ## Pairs in `solved` -/

theorem handleClick_solved_cases (s s' : State) (id : Nat) (hc : handleClick s id = some s') :
    s'.cards = s.cards ∧
    (s'.solved = s.solved ∨
      ∃ p cp cid, p ≠ id ∧ s.flipped = [p] ∧ s.cards[p]? = some cp ∧ s.cards[id]? = some cid ∧
        cp.number = cid.number ∧ s'.solved = s.solved ++ [p, id]) := by
  unfold handleClick at hc
  split at hc
  · cases hc; exact ⟨rfl, Or.inl rfl⟩
  · split at hc
    · cases hc; exact ⟨rfl, Or.inl rfl⟩
    · split at hc
      · rename_i hlen
        obtain ⟨p, hp⟩ := List.length_eq_one.mp hlen
        split at hc
        · rename_i hne
          have hpid : p ≠ id := by
            simp only [hp, List.head?_cons, ne_eq, Option.some.injEq] at hne
            exact Ne.symm hne
          unfold checkMatch at hc
          split at hc
          · cases hc
          · rename_i firstId hfirst
            have hfp : firstId = p := by simpa [hp] using hfirst.symm
            subst hfp
            split at hc
            · rename_i first second h1 h2
              split at hc
              · rename_i hnum
                cases hc
                exact ⟨rfl, Or.inr ⟨firstId, first, second, hpid, hp, h1, h2, hnum, rfl⟩⟩
              · cases hc; exact ⟨rfl, Or.inl rfl⟩
            · cases hc
        · cases hc; exact ⟨rfl, Or.inl rfl⟩
      · cases hc; exact ⟨rfl, Or.inl rfl⟩

theorem step_play_solved_cases (s : State) (e : Event) (s' : State)
    (hp : playOnly [e] = true) (hs : step s e = some s') :
    s'.cards = s.cards ∧
    (s'.solved = s.solved ∨
      ∃ p id cp cid, p ≠ id ∧ s.cards[p]? = some cp ∧ s.cards[id]? = some cid ∧
        cp.number = cid.number ∧ s'.solved = s.solved ++ [p, id]) := by
  cases e with
  | click id =>
    simp only [step] at hs
    split at hs
    · cases hc : handleClick s id with
      | none => simp [hc] at hs
      | some s1 =>
        rw [hc] at hs
        simp only [Option.some.injEq] at hs
        obtain ⟨h1, h2⟩ := handleClick_solved_cases s s1 id hc
        have hcards : s'.cards = s.cards := by
          split at hs
          · rw [← hs]; exact h1
          · rw [← hs, winEffect_cards]; exact h1
        have hsolved : s'.solved = s1.solved := by
          split at hs
          · rw [← hs]
          · rw [← hs, winEffect_solved]
        refine ⟨hcards, ?_⟩
        rcases h2 with h2 | ⟨p, cp, cid, hne, _, hcp, hcid, hnum, hsol⟩
        · exact Or.inl (hsolved.trans h2)
        · exact Or.inr ⟨p, id, cp, cid, hne, hcp, hcid, hnum, hsolved.trans hsol⟩
    · cases hs
  | timer =>
    simp only [step] at hs
    split at hs
    · cases hs; exact ⟨rfl, Or.inl rfl⟩
    · cases hs
  | reset sh => simp [playOnly] at hp
  | gridSize size sh => simp [playOnly] at hp
  | setMaxMoves m => simp [playOnly] at hp

theorem playOnly_cons (e : Event) (es : List Event) (h : playOnly (e :: es) = true) :
    playOnly [e] = true ∧ playOnly es = true := by
  cases e <;> simp_all [playOnly]

theorem run_play_invariant (P : State → Prop)
    (hstep : ∀ s e s', playOnly [e] = true → P s → step s e = some s' → P s')
    (s : State) (evs : List Event) (s' : State) (hplay : playOnly evs = true)
    (h0 : P s) (hrun : run s evs = some s') : P s' := by
  induction evs generalizing s with
  | nil =>
    simp only [run, Option.some.injEq] at hrun
    exact hrun ▸ h0
  | cons e es ih =>
    obtain ⟨hp1, hp2⟩ := playOnly_cons e es hplay
    simp only [run] at hrun
    cases hs : step s e with
    | none => simp [hs] at hrun
    | some s1 =>
      rw [hs] at hrun
      exact ih s1 hp2 (hstep s e s1 hp1 h0 hs) hrun

theorem pairs_append (deck : List Card) (solved : List Nat) (p id : Nat) (cp cid : Card)
    (hD : ∀ v, carriers deck v ≤ 2)
    (hK : ∀ x ∈ solved, ∀ y cx cy, y ≠ x → deck[x]? = some cx → deck[y]? = some cy →
      cy.number = cx.number → y ∈ solved)
    (hE : ∀ x ∈ solved, ∃ y cx cy, y ≠ x ∧ y ∈ solved ∧ deck[x]? = some cx ∧
      deck[y]? = some cy ∧ cy.number = cx.number)
    (hP : Even solved.toFinset.card)
    (hne : p ≠ id) (hcp : deck[p]? = some cp) (hcid : deck[id]? = some cid)
    (hnum : cp.number = cid.number) :
    (∀ x ∈ solved ++ [p, id], ∀ y cx cy, y ≠ x → deck[x]? = some cx → deck[y]? = some cy →
      cy.number = cx.number → y ∈ solved ++ [p, id]) ∧
    (∀ x ∈ solved ++ [p, id], ∃ y cx cy, y ≠ x ∧ y ∈ solved ++ [p, id] ∧ deck[x]? = some cx ∧
      deck[y]? = some cy ∧ cy.number = cx.number) ∧
    Even (solved ++ [p, id]).toFinset.card := by
  refine ⟨?_, ?_, ?_⟩
  · intro x hx y cx cy hyx hcx hcy hn
    rcases List.mem_append.mp hx with hx | hx
    · exact List.mem_append_left _ (hK x hx y cx cy hyx hcx hcy hn)
    · have hx2 : x = p ∨ x = id := by simpa using hx
      by_cases hyp : y = p
      · subst hyp; simp
      by_cases hyid : y = id
      · subst hyid; simp
      exfalso
      rcases hx2 with hx2 | hx2
      · subst hx2
        have hc : cx = cp := Option.some.inj (hcx.symm.trans hcp)
        subst hc
        exact third_carrier_absent deck x id y cx cid cy (hD _) hne (Ne.symm hyid)
          (Ne.symm hyp) hcp hcid hcy hnum.symm hn
      · subst hx2
        have hc : cx = cid := Option.some.inj (hcx.symm.trans hcid)
        subst hc
        exact third_carrier_absent deck x p y cx cp cy (hD _) (Ne.symm hne) (Ne.symm hyp)
          (Ne.symm hyid) hcid hcp hcy hnum hn
  · intro x hx
    rcases List.mem_append.mp hx with hx | hx
    · obtain ⟨y, cx, cy, h1, h2, h3⟩ := hE x hx
      exact ⟨y, cx, cy, h1, List.mem_append_left _ h2, h3⟩
    · have hx2 : x = p ∨ x = id := by simpa using hx
      rcases hx2 with hx2 | hx2
      · subst hx2
        exact ⟨id, cp, cid, Ne.symm hne, by simp, hcp, hcid, hnum.symm⟩
      · subst hx2
        exact ⟨p, cid, cp, hne, by simp, hcid, hcp, hnum⟩
  · have hiff : p ∈ solved ↔ id ∈ solved :=
      ⟨fun h => hK p h id cp cid (Ne.symm hne) hcp hcid hnum.symm,
       fun h => hK id h p cid cp hne hcid hcp hnum⟩
    have hset : (solved ++ [p, id]).toFinset = insert p (insert id solved.toFinset) := by
      ext z
      simp only [List.toFinset_append, List.toFinset_cons, List.toFinset_nil, Finset.mem_union,
        Finset.mem_insert, List.mem_toFinset]
      simp only [Finset.not_mem_empty, or_false]
      tauto
    rw [hset]
    by_cases hp : p ∈ solved
    · have hid := hiff.mp hp
      rw [Finset.insert_eq_of_mem (by simp [hp]), Finset.insert_eq_of_mem (by simp [hid])]
      exact hP
    · have hid : id ∉ solved := fun h => hp (hiff.mpr h)
      rw [Finset.card_insert_of_not_mem (by simp [hne, hp]),
        Finset.card_insert_of_not_mem (by simp [hid])]
      obtain ⟨k, hk⟩ := hP
      exact ⟨k + 1, by omega⟩

/-- C16: in every state reached from a fresh game (a grid of admitted size, a
shuffle that permutes its input) by tile selections and timer firings, the
number of distinct tile ids in `solved` is even, every id in `solved` has another
id in `solved` whose card carries the same number, and every other tile whose
card carries the same number as a tile in `solved` is in `solved` too. -/
theorem solved_holds_complete_pairs (s : State) (hr : Reachable s) :
    distinctSolved s % 2 = 0 ∧
    (∀ x ∈ s.solved, ∃ y cx cy, y ≠ x ∧ y ∈ s.solved ∧ s.cards[x]? = some cx ∧
      s.cards[y]? = some cy ∧ cy.number = cx.number) ∧
    (∀ x ∈ s.solved, ∀ y cx cy, y ≠ x → s.cards[x]? = some cx → s.cards[y]? = some cy →
      cy.number = cx.number → y ∈ s.solved) := by
  obtain ⟨g, sh, evs, _, _, hperm, hplay, hrun⟩ := hr
  have hinv := run_play_invariant
    (fun t => (∀ v, carriers t.cards v ≤ 2) ∧
      (∀ x ∈ t.solved, ∀ y cx cy, y ≠ x → t.cards[x]? = some cx → t.cards[y]? = some cy →
        cy.number = cx.number → y ∈ t.solved) ∧
      (∀ x ∈ t.solved, ∃ y cx cy, y ≠ x ∧ y ∈ t.solved ∧ t.cards[x]? = some cx ∧
        t.cards[y]? = some cy ∧ cy.number = cx.number) ∧
      Even t.solved.toFinset.card)
    (by
      intro a e b hp ⟨hD, hK, hE, hP⟩ hs
      obtain ⟨hcards, hsol⟩ := step_play_solved_cases a e b hp hs
      show (∀ v, carriers b.cards v ≤ 2) ∧
        (∀ x ∈ b.solved, ∀ y cx cy, y ≠ x → b.cards[x]? = some cx → b.cards[y]? = some cy →
          cy.number = cx.number → y ∈ b.solved) ∧
        (∀ x ∈ b.solved, ∃ y cx cy, y ≠ x ∧ y ∈ b.solved ∧ b.cards[x]? = some cx ∧
          b.cards[y]? = some cy ∧ cy.number = cx.number) ∧
        Even b.solved.toFinset.card
      rcases hsol with hsol | ⟨p, id, cp, cid, hne, hcp, hcid, hnum, hsol⟩
      · rw [hcards, hsol]; exact ⟨hD, hK, hE, hP⟩
      · rw [hcards, hsol]
        exact ⟨hD, pairs_append a.cards a.solved p id cp cid hD hK hE hP hne hcp hcid hnum⟩)
    (freshGame g sh) evs s hplay
    (by
      have hc : (freshGame g sh).cards = shuffledCards g sh := by
        simp [freshGame, winEffect_cards, initializeGame]
      have hs : (freshGame g sh).solved = [] := by
        simp [freshGame, winEffect_solved, initializeGame]
      show (∀ v, carriers (freshGame g sh).cards v ≤ 2) ∧
        (∀ x ∈ (freshGame g sh).solved, ∀ y cx cy, y ≠ x →
          (freshGame g sh).cards[x]? = some cx → (freshGame g sh).cards[y]? = some cy →
          cy.number = cx.number → y ∈ (freshGame g sh).solved) ∧
        (∀ x ∈ (freshGame g sh).solved, ∃ y cx cy, y ≠ x ∧ y ∈ (freshGame g sh).solved ∧
          (freshGame g sh).cards[x]? = some cx ∧ (freshGame g sh).cards[y]? = some cy ∧
          cy.number = cx.number) ∧
        Even (freshGame g sh).solved.toFinset.card
      rw [hc, hs]
      refine ⟨?_, by simp, by simp, by simp⟩
      intro v
      rcases carriers_shuffledCards g sh hperm v with h | h <;> omega)
    hrun
  obtain ⟨_, hK, hE, hP⟩ := hinv
  refine ⟨?_, hE, hK⟩
  unfold distinctSolved
  rw [← List.card_toFinset]
  exact Nat.even_iff.mp hP

/-- Witness for C16: the 2×2 game `1 2 1 2` after tiles 0 and 2 were matched
twice and tile 1 was selected. -/
theorem solved_holds_complete_pairs_witness :
    Reachable { freshGame 2 id with solved := [0, 2, 0, 2], moves := 4, won := true } ∧
    (distinctSolved { freshGame 2 id with solved := [0, 2, 0, 2], moves := 4, won := true } % 2
        = 0 ∧
      (∀ x ∈ ({ freshGame 2 id with
            solved := [0, 2, 0, 2], moves := 4, won := true } : State).solved,
        ∃ y cx cy, y ≠ x ∧
          y ∈ ({ freshGame 2 id with
            solved := [0, 2, 0, 2], moves := 4, won := true } : State).solved ∧
          ({ freshGame 2 id with
            solved := [0, 2, 0, 2], moves := 4, won := true } : State).cards[x]? = some cx ∧
          ({ freshGame 2 id with
            solved := [0, 2, 0, 2], moves := 4, won := true } : State).cards[y]? = some cy ∧
          cy.number = cx.number) ∧
      (∀ x ∈ ({ freshGame 2 id with
            solved := [0, 2, 0, 2], moves := 4, won := true } : State).solved,
        ∀ y cx cy, y ≠ x →
          ({ freshGame 2 id with
            solved := [0, 2, 0, 2], moves := 4, won := true } : State).cards[x]? = some cx →
          ({ freshGame 2 id with
            solved := [0, 2, 0, 2], moves := 4, won := true } : State).cards[y]? = some cy →
          cy.number = cx.number →
          y ∈ ({ freshGame 2 id with
            solved := [0, 2, 0, 2], moves := 4, won := true } : State).solved)) :=
  have hr : Reachable { freshGame 2 id with solved := [0, 2, 0, 2], moves := 4, won := true } :=
    ⟨2, id, clicks [0, 2, 0, 2], by decide, by decide, fun l => List.Perm.refl l, rfl,
      by decide⟩
  ⟨hr, solved_holds_complete_pairs _ hr⟩

/-! ## Winning a fresh game -/

theorem run_match_pair (s : State) (i j : Nat) (ci cj : Card) (rest : List Event)
    (hd : s.disabled = false) (hw : s.won = false) (hf : s.flipped = [])
    (hm : s.moves + 2 ≤ s.maxMoves) (hij : i ≠ j)
    (hci : s.cards[i]? = some ci) (hcj : s.cards[j]? = some cj)
    (hnum : ci.number = cj.number) :
    run s (Event.click i :: Event.click j :: rest) =
      run (winEffect { s with solved := s.solved ++ [i, j], moves := s.moves + 2 }) rest := by
  have hli : i < s.cards.length := (List.getElem?_eq_some_iff.mp hci).1
  have hlj : j < s.cards.length := (List.getElem?_eq_some_iff.mp hcj).1
  let s1 : State := { s with flipped := [i], moves := s.moves + 1 }
  let s2 : State := { s with solved := s.solved ++ [i, j], moves := s.moves + 2 }
  have h1 : step s (Event.click i) = some s1 := by
    simp only [step, hli, if_true, handleClick_idle s i hd hw (by omega) hf]
  have hc : handleClick s1 j = some s2 := by
    rw [handleClick_second s1 i j hd hw (show s.moves + 1 < s.maxMoves by omega) rfl
      (Ne.symm hij)]
    simp only [checkMatch, s1, List.head?_cons, hci, hcj, hnum, if_true, Option.some.injEq]
    simp [s2, hd, hf]
  have hsol : s2.solved ≠ s1.solved := by
    intro h
    have := congrArg List.length h
    simp [s1, s2] at this
  have h2 : step s1 (Event.click j) = some (winEffect s2) := by
    have hlj1 : j < s1.cards.length := hlj
    simp only [step, hlj1, if_true, hc, hsol, if_false]
  simp only [run, h1, h2]

theorem exists_two_of_count (l : List Nat) (v : Nat) (h : 2 ≤ l.count v) :
    ∃ i j : Nat, i < j ∧ l[i]? = some v ∧ l[j]? = some v := by
  induction l with
  | nil => simp at h
  | cons a t ih =>
    by_cases hav : a = v
    · subst hav
      rw [List.count_cons_self] at h
      have hmem : a ∈ t := List.count_pos_iff.mp (by omega)
      obtain ⟨k, hk⟩ := List.mem_iff_getElem?.mp hmem
      exact ⟨0, k + 1, by omega, by simp, by simpa using hk⟩
    · rw [List.count_cons_of_ne (fun h' => hav h'.symm)] at h
      obtain ⟨i, j, hij, hi, hj⟩ := ih h
      exact ⟨i + 1, j + 1, by omega, by simpa using hi, by simpa using hj⟩

theorem carriers_of_mem_numbers (g : Nat) (shuffle : List Nat → List Nat)
    (hperm : ∀ l, (shuffle l).Perm l) (v : Nat) (hv : v ∈ numbers (g * g / 2)) :
    carriers (shuffledCards g shuffle) v = 2 := by
  unfold carriers
  rw [map_number_shuffledCards, take_shuffle_eq g shuffle hperm, (hperm _).count_eq,
    List.count_append, List.count_eq_one_of_mem (nodup_numbers _) hv]

theorem pair_of_mem_numbers (g : Nat) (shuffle : List Nat → List Nat)
    (hperm : ∀ l, (shuffle l).Perm l) (v : Nat) (hv : v ∈ numbers (g * g / 2)) :
    ∃ (i j : Nat) (ci cj : Card), i ≠ j ∧ (shuffledCards g shuffle)[i]? = some ci ∧
      (shuffledCards g shuffle)[j]? = some cj ∧ ci.number = v ∧ cj.number = v := by
  have h2 := carriers_of_mem_numbers g shuffle hperm v hv
  unfold carriers at h2
  obtain ⟨i, j, hij, hi, hj⟩ :=
    exists_two_of_count ((shuffledCards g shuffle).map Card.number) v (by omega)
  rw [List.getElem?_map] at hi hj
  obtain ⟨ci, hci, hni⟩ := Option.map_eq_some'.mp hi
  obtain ⟨cj, hcj, hnj⟩ := Option.map_eq_some'.mp hj
  exact ⟨i, j, ci, cj, by omega, hci, hcj, hni, hnj⟩

theorem covers_of_nodup (l : List Nat) (n : Nat) (hn : l.Nodup) (hb : ∀ x ∈ l, x < n)
    (hl : l.length = n) : ∀ x, x < n → x ∈ l := by
  intro x hx
  have hsub : l.toFinset ⊆ Finset.range n := by
    intro y hy
    exact Finset.mem_range.mpr (hb y (List.mem_toFinset.mp hy))
  have hcard : (Finset.range n).card ≤ l.toFinset.card := by
    rw [List.toFinset_card_of_nodup hn, Finset.card_range, hl]
  have heq := Finset.eq_of_subset_of_card_le hsub hcard
  have : x ∈ l.toFinset := by rw [heq]; exact Finset.mem_range.mpr hx
  exact List.mem_toFinset.mp this

theorem winEffect_timers (s : State) : (winEffect s).timers = s.timers := by
  unfold winEffect; split <;> rfl

/-- Matching, one after the other, the two cards of each number of `vs` wins the
game when these are all the cards that are not in `solved` yet. -/
theorem win_by_pairs (vs : List Nat) (s : State)
    (hf : s.flipped = []) (hd : s.disabled = false) (hw : s.won = false)
    (ht : s.timers = 0) (hne : vs ≠ []) (hnd : vs.Nodup)
    (hlen : s.solved.length + 2 * vs.length = s.cards.length)
    (hmoves : s.moves = s.solved.length) (hmax : s.cards.length ≤ s.maxMoves)
    (hsn : s.solved.Nodup) (hsb : ∀ x ∈ s.solved, x < s.cards.length)
    (hsv : ∀ x ∈ s.solved, ∀ c, s.cards[x]? = some c → c.number ∉ vs)
    (hpairs : ∀ v ∈ vs, ∃ (i j : Nat) (ci cj : Card), i ≠ j ∧ s.cards[i]? = some ci ∧
      s.cards[j]? = some cj ∧ ci.number = v ∧ cj.number = v) :
    ∃ ids s', run s (clicks ids) = some s' ∧ s'.won = true ∧ s'.moves = s'.cards.length ∧
      s'.maxMoves = s.maxMoves ∧ s'.cards = s.cards ∧ s'.timers = 0 ∧ s'.solved.Nodup ∧
      s'.solved.length = s'.cards.length ∧ (∀ x ∈ s'.solved, x < s'.cards.length) := by
  induction vs generalizing s with
  | nil => exact absurd rfl hne
  | cons v rest ih =>
    obtain ⟨i, j, ci, cj, hij, hci, hcj, hni, hnj⟩ := hpairs v (List.mem_cons_self _ _)
    have hli : i < s.cards.length := (List.getElem?_eq_some_iff.mp hci).1
    have hlj : j < s.cards.length := (List.getElem?_eq_some_iff.mp hcj).1
    have hlen' : s.solved.length + 2 * (rest.length + 1) = s.cards.length := by
      simpa using hlen
    have hi_new : i ∉ s.solved := fun h => hsv i h ci hci (by rw [hni]; exact List.mem_cons_self _ _)
    have hj_new : j ∉ s.solved := fun h => hsv j h cj hcj (by rw [hnj]; exact List.mem_cons_self _ _)
    let s2 : State := { s with solved := s.solved ++ [i, j], moves := s.moves + 2 }
    have hrun : ∀ ids, run s (clicks (i :: j :: ids)) = run (winEffect s2) (clicks ids) := by
      intro ids
      exact run_match_pair s i j ci cj (clicks ids) hd hw hf (by omega) hij hci hcj
        (hni.trans hnj.symm)
    have hs2n : s2.solved.Nodup := by
      show (s.solved ++ [i, j]).Nodup
      rw [List.nodup_append]
      refine ⟨hsn, by simp [hij], ?_⟩
      intro x hx hx2
      have : x = i ∨ x = j := by simpa using hx2
      rcases this with h | h
      · exact hi_new (h ▸ hx)
      · exact hj_new (h ▸ hx)
    have hs2b : ∀ x ∈ s2.solved, x < s2.cards.length := by
      intro x hx
      rcases List.mem_append.mp hx with hx | hx
      · exact hsb x hx
      · have : x = i ∨ x = j := by simpa using hx
        rcases this with h | h
        · rw [h]; exact hli
        · rw [h]; exact hlj
    have hs2l : s2.solved.length = s.solved.length + 2 := by
      show (s.solved ++ [i, j]).length = _
      simp
    by_cases hrest : rest = []
    · subst hrest
      have hcond : s2.solved.length = s2.cards.length ∧ s2.cards.length > 0 := by
        have h1 : s2.cards.length = s.cards.length := rfl
        rw [hs2l, h1]
        simp at hlen'
        omega
      have hwin : winEffect s2 = { s2 with won := true } := by
        unfold winEffect
        rw [if_pos hcond]
      refine ⟨[i, j], winEffect s2, ?_, ?_, ?_, ?_, ?_, ?_, ?_, ?_, ?_⟩
      · rw [hrun []]; rfl
      · rw [hwin]
      · rw [winEffect_moves, winEffect_cards]
        show s.moves + 2 = s.cards.length
        simp at hlen'
        omega
      · rw [winEffect_maxMoves]
      · rw [winEffect_cards]
      · rw [winEffect_timers]; exact ht
      · rw [winEffect_solved]; exact hs2n
      · rw [winEffect_solved, winEffect_cards]; exact hcond.1
      · rw [winEffect_solved, winEffect_cards]; exact hs2b
    · have hrl : 1 ≤ rest.length := by
        cases rest with
        | nil => exact absurd rfl hrest
        | cons a t => simp
      have hwin : winEffect s2 = s2 := by
        unfold winEffect
        rw [if_neg]
        intro hc
        have h1 : s2.cards.length = s.cards.length := rfl
        rw [hs2l, h1] at hc
        omega
      have hnd' := List.nodup_cons.mp hnd
      obtain ⟨ids, s', h1, h2, h3, h4, h5, h6, h7, h8, h9⟩ := ih s2 hf hd hw ht hrest hnd'.2
        (by rw [hs2l]; show _ = s.cards.length; omega)
        (by rw [hs2l]; show s.moves + 2 = _; omega) hmax hs2n hs2b
        (by
          intro x hx c hc hmem
          rcases List.mem_append.mp hx with hx | hx
          · exact hsv x hx c hc (List.mem_cons_of_mem _ hmem)
          · have hx2 : x = i ∨ x = j := by simpa using hx
            have hcv : c.number = v := by
              rcases hx2 with h | h
              · subst h
                rw [← hni, Option.some.inj (hci.symm.trans hc)]
              · subst h
                rw [← hnj, Option.some.inj (hcj.symm.trans hc)]
            exact hnd'.1 (hcv ▸ hmem))
        (fun w hw' => hpairs w (List.mem_cons_of_mem _ hw'))
      refine ⟨i :: j :: ids, s', ?_, h2, h3, h4, h5, h6, h7, h8, h9⟩
      rw [hrun ids, hwin]; exact h1

theorem freshGame_eq (g : Nat) (shuffle : List Nat → List Nat) :
    freshGame g shuffle = initializeGame { mountState with gridSize := g } shuffle := by
  unfold freshGame winEffect
  rw [if_neg]
  intro h
  have h0 : (initializeGame { mountState with gridSize := g } shuffle).solved.length = 0 := rfl
  omega

/-- C19: for every grid size from 2 on (in particular 2 ≤ gridSize ≤ 10) and
every shuffle that permutes its input, the move limit of the fresh game is
`gridSize * gridSize + 2`, which is at least the number of cards of the deck, and
some sequence of tile selections, in which no timeout is scheduled, leads from
the fresh game to a state whose outcome is `Won`, with every card of the deck
in `solved`, as many moves as the deck has cards and `moves ≤ maxMoves`. -/
theorem fresh_game_can_be_won (gridSize : Nat) (shuffle : List Nat → List Nat)
    (hg : 2 ≤ gridSize) (hperm : ∀ l, (shuffle l).Perm l) :
    (freshGame gridSize shuffle).maxMoves = gridSize * gridSize + 2 ∧
    (freshGame gridSize shuffle).cards.length ≤ (freshGame gridSize shuffle).maxMoves ∧
    ∃ ids s, run (freshGame gridSize shuffle) (clicks ids) = some s ∧
      outcome s = Outcome.Won ∧ s.moves ≤ s.maxMoves ∧
      s.maxMoves = gridSize * gridSize + 2 ∧ s.timers = 0 ∧
      s.moves = s.cards.length ∧ ∀ id, id < s.cards.length → id ∈ s.solved := by
  have hlenc : (freshGame gridSize shuffle).cards.length = 2 * (gridSize * gridSize / 2) := by
    rw [freshGame_eq]
    exact length_shuffledCards gridSize shuffle hperm
  have hmaxm : (freshGame gridSize shuffle).maxMoves = gridSize * gridSize + 2 := by
    rw [freshGame_eq]; rfl
  have hpc : 2 ≤ gridSize * gridSize / 2 := by
    have : 2 * 2 ≤ gridSize * gridSize := Nat.mul_le_mul hg hg
    omega
  have hle : (freshGame gridSize shuffle).cards.length ≤ (freshGame gridSize shuffle).maxMoves := by
    rw [hlenc, hmaxm]; omega
  refine ⟨hmaxm, hle, ?_⟩
  have hvs : numbers (gridSize * gridSize / 2) ≠ [] := by
    intro h
    have := congrArg List.length h
    rw [length_numbers] at this
    simp at this
    omega
  obtain ⟨ids, s, h1, h2, h3, h4, h5, h6, h7, h8, h9⟩ :=
    win_by_pairs (numbers (gridSize * gridSize / 2)) (freshGame gridSize shuffle)
      (by rw [freshGame_eq]; rfl) (by rw [freshGame_eq]; rfl) (by rw [freshGame_eq]; rfl)
      (by rw [freshGame_eq]; rfl) hvs (nodup_numbers _)
      (by
        rw [hlenc, length_numbers]
        have : (freshGame gridSize shuffle).solved = [] := by rw [freshGame_eq]; rfl
        rw [this]; simp)
      (by rw [freshGame_eq]; rfl) hle
      (by
        have : (freshGame gridSize shuffle).solved = [] := by rw [freshGame_eq]; rfl
        rw [this]; exact List.nodup_nil)
      (by
        have : (freshGame gridSize shuffle).solved = [] := by rw [freshGame_eq]; rfl
        rw [this]; intro x hx; simp at hx)
      (by
        have : (freshGame gridSize shuffle).solved = [] := by rw [freshGame_eq]; rfl
        rw [this]; intro x hx; simp at hx)
      (by
        intro v hv
        have hc : (freshGame gridSize shuffle).cards = shuffledCards gridSize shuffle := by
          rw [freshGame_eq]; rfl
        rw [hc]
        exact pair_of_mem_numbers gridSize shuffle hperm v hv)
  refine ⟨ids, s, h1, (outcome_eq_won_iff s).mpr h2, ?_, by rw [h4, hmaxm], h6, h3, ?_⟩
  · rw [h3, h5, h4]; exact hle
  · exact covers_of_nodup s.solved s.cards.length h7 h9 h8

/-- Witness for C19: the 2×2 grid with the shuffle that leaves the numbers in
place. -/
theorem fresh_game_can_be_won_witness :
    (freshGame 2 id).maxMoves = 2 * 2 + 2 ∧
    (freshGame 2 id).cards.length ≤ (freshGame 2 id).maxMoves ∧
    ∃ ids s, run (freshGame 2 id) (clicks ids) = some s ∧
      outcome s = Outcome.Won ∧ s.moves ≤ s.maxMoves ∧
      s.maxMoves = 2 * 2 + 2 ∧ s.timers = 0 ∧
      s.moves = s.cards.length ∧ ∀ x, x < s.cards.length → x ∈ s.solved :=
  fresh_game_can_be_won 2 id (by decide) (fun l => List.Perm.refl l)
